import Mathlib

/-!
Shallow embedding of the channel-bank / mixing-engine core of
`src/SDL_mixer/mixer.c` (libretro-wolfenstein3d).

Modelling conventions:
* The channel bank `mix_channel[0..num_channels)` is a `List Channel`; the
  global `num_channels` is the list length.
* C `int` fields are `Int`; C `Uint32` tick values are `Nat`, with 32-bit
  wrap-around made explicit through `u32add`/`u32sub` at the spots where the
  C code performs unsigned arithmetic.
* A chunk pointer is modelled by an `Option Mix_Chunk`; the `id` field stands
  for the buffer address (`abuf`), so that value equality of `Mix_Chunk`
  plays the role of the pointer comparison in `Mix_FreeChunk` (distinct
  allocations carry distinct ids).
* The audio bytes themselves are not modelled: the claims under study are
  about channel state, byte counts and completion-callback events, none of
  which depend on the mixed PCM values.  `SDL_MixAudio`/`Mix_DoEffects`
  mutate only the output buffer, never the channel state.
* The completion callback `_Mix_channel_done_playing(i)` is modelled as an
  emitted event (the channel index); functions return the list (or count)
  of events in the order the C code would fire them.
-/

namespace SDLMixer

/-- `SDL_MIX_MAXVOLUME` / `MIX_MAX_VOLUME` (128). -/
def MIX_MAX_VOLUME : Nat := 128

/-- 2^32, the modulus of C `Uint32` tick arithmetic. -/
def U32M : Nat := 4294967296

/-- `Uint32` addition (`a + b` with 32-bit wrap-around). -/
def u32add (a b : Nat) : Nat := (a + b) % U32M

/-- `Uint32` subtraction (`a - b` with 32-bit wrap-around). -/
def u32sub (a b : Nat) : Nat := (a + U32M - b % U32M) % U32M

/-- `Mix_Fading` (MIX_NO_FADING / MIX_FADING_OUT / MIX_FADING_IN). -/
inductive Mix_Fading where
  | noFading
  | fadingOut
  | fadingIn
deriving DecidableEq, Repr, Inhabited

/-- `Mix_Chunk`: the header is not in `src/`, but `mixer.c` uses exactly the
fields `allocated`, `abuf`, `alen`, `volume`.  `id` stands for the `abuf`
pointer identity. -/
structure Mix_Chunk where
  id : Nat
  alen : Nat
  volume : Nat
  allocated : Bool
deriving DecidableEq, Repr, Inhabited

/-- One `struct _Mix_Channel`.  `samplesPos` is the offset
`samples - chunk->abuf`; `paused` stores the tick at which the channel was
paused (0 = not paused); `effects` is kept abstract (only its emptiness is
ever observable in the claims). -/
structure Channel where
  chunk : Option Mix_Chunk
  playing : Int
  paused : Nat
  samplesPos : Nat
  volume : Nat
  looping : Int
  tag : Int
  expire : Nat
  start_time : Nat
  fading : Mix_Fading
  fade_volume : Nat
  fade_volume_reset : Nat
  fade_length : Nat
  ticks_fade : Nat
  effects : List Unit
deriving DecidableEq, Repr, Inhabited

/-- The mixer session state: the channel bank plus `reserved_channels`. -/
structure Mixer where
  channels : List Channel
  reservedChannels : Nat
deriving DecidableEq, Repr, Inhabited

/-- The relevant part of the negotiated `SDL_AudioSpec`. -/
structure AudioSpec where
  format : Nat
  channels : Nat
deriving DecidableEq, Repr, Inhabited

/-- Frame width as computed in `checkchunkintegral`:
`frame_width = ((format & 0xFF) == 16 ? 2 : 1) * channels`. -/
def frameWidth (s : AudioSpec) : Nat :=
  (if s.format % 256 = 16 then 2 else 1) * s.channels

/-- The body of `Mix_Volume` for one in-range channel: returns the updated
channel and the previous volume.  A negative requested volume is
query-only; otherwise the value is clamped to `SDL_MIX_MAXVOLUME`. -/
def volumeCore (ch : Channel) (volume : Int) : Channel × Int :=
  let prev : Int := (ch.volume : Int)
  if 0 ≤ volume then
    let v : Int := if (MIX_MAX_VOLUME : Int) < volume then (MIX_MAX_VOLUME : Int) else volume
    ({ ch with volume := v.toNat }, prev)
  else (ch, prev)

/-- `Mix_Playing`'s per-channel activity test:
`playing > 0 || looping != 0`. -/
def channelActive (ch : Channel) : Bool :=
  decide (0 < ch.playing) || decide (ch.looping ≠ 0)

/-- The expiration / fade section at the top of the per-channel loop in
`mix_channels` (mixer.c lines 176-210).  Returns the updated channel and
the number of completion events fired. -/
def tickPhase1 (t : Nat) (ch : Channel) : Channel × Nat :=
  if 0 < ch.expire ∧ ch.expire < t then
    ({ ch with playing := 0, looping := 0, fading := Mix_Fading.noFading, expire := 0 }, 1)
  else if ch.fading ≠ Mix_Fading.noFading then
    let ticks := u32sub t ch.ticks_fade
    if ch.fade_length < ticks then
      let ch1 := (volumeCore ch (ch.fade_volume_reset : Int)).1
      if ch1.fading = Mix_Fading.fadingOut then
        ({ ch1 with playing := 0, looping := 0, expire := 0, fading := Mix_Fading.noFading }, 1)
      else
        ({ ch1 with fading := Mix_Fading.noFading }, 0)
    else
      if ch.fading = Mix_Fading.fadingOut then
        ((volumeCore ch ((ch.fade_volume * (ch.fade_length - ticks) % U32M / ch.fade_length : Nat) : Int)).1, 0)
      else
        ((volumeCore ch ((ch.fade_volume * ticks % U32M / ch.fade_length : Nat) : Int)).1, 0)
  else (ch, 0)

/-- The first `while` of the sample-mixing section (mixer.c lines 216-236):
`while (playing > 0 && index < len)`.  State is
`(playing, samplesPos, index, events)`.  The loop provably performs at most
one effective iteration (each pass zeroes `playing` or fills the buffer),
so any positive fuel computes the exact C semantics; callers pass
`len + 1`. -/
def sampleLoop (fuel : Nat) (len : Nat) (lp : Int) (playing : Int)
    (sPos index events : Nat) : Int × Nat × Nat × Nat :=
  match fuel with
  | 0 => (playing, sPos, index, events)
  | fuel + 1 =>
    if 0 < playing ∧ index < len then
      let remaining := len - index
      let mixable := min playing.toNat remaining
      let playing1 := playing - (mixable : Int)
      let events1 := if playing1 = 0 ∧ lp = 0 then events + 1 else events
      sampleLoop fuel len lp playing1 (sPos + mixable) (index + mixable) events1
    else (playing, sPos, index, events)

/-- The loop-wrap `while` (mixer.c lines 240-257):
`while (looping && index < len)`.  State is
`(looping, samplesPos, playing, index)`.  Each effective iteration advances
`index` by `min (len - index) alen ≥ 1` whenever `alen > 0`, so fuel `len`
computes the exact C semantics for every chunk a playing channel can hold
(`Mix_PlayChannelTimed` rejects `alen = 0`); with `alen = 0` the C loop
would not terminate at all. -/
def loopWrap (fuel : Nat) (alen : Nat) (looping : Int) (sPos : Nat)
    (playing : Int) (len index : Nat) : Int × Nat × Int × Nat :=
  match fuel with
  | 0 => (looping, sPos, playing, index)
  | fuel + 1 =>
    if looping ≠ 0 ∧ index < len then
      let remaining := min (len - index) alen
      let looping1 := if 0 < looping then looping - 1 else looping
      loopWrap fuel alen looping1 remaining ((alen : Int) - (remaining : Int)) len (index + remaining)
    else (looping, sPos, playing, index)

/-- Result of mixing one channel for one callback invocation. -/
structure TickOut where
  ch : Channel
  events : Nat
  bytes : Nat
deriving DecidableEq, Repr, Inhabited

/-- The `if (mix_channel[i].playing > 0)` section of the per-channel loop
(mixer.c lines 212-265): sample loop, loop wrap, and the end-of-chunk
restart fix-up.  A playing channel with a null chunk would crash the C
code; the model skips it (it is unreachable from the playback API). -/
def mixPhase (len : Nat) (ch : Channel) : TickOut :=
  if 0 < ch.playing then
    match ch.chunk with
    | none => ⟨ch, 0, 0⟩
    | some c =>
      match sampleLoop (len + 1) len ch.looping ch.playing ch.samplesPos 0 0 with
      | (p1, s1, i1, e1) =>
        match loopWrap len c.alen ch.looping s1 p1 len i1 with
        | (l2, s2, p2, i2) =>
          if p2 = 0 ∧ l2 ≠ 0 then
            ⟨{ ch with looping := if 0 < l2 then l2 - 1 else l2, samplesPos := 0,
                       playing := (c.alen : Int) }, e1, i2⟩
          else
            ⟨{ ch with looping := l2, samplesPos := s2, playing := p2 }, e1, i2⟩
  else ⟨ch, 0, 0⟩

/-- One channel's full treatment in one `mix_channels` callback: skipped
entirely when paused, otherwise the expiration/fade phase followed by the
sample-mixing phase. -/
def mixTick1 (t len : Nat) (ch : Channel) : TickOut :=
  if ch.paused ≠ 0 then ⟨ch, 0, 0⟩
  else
    match tickPhase1 t ch with
    | (ch1, e1) =>
      let o := mixPhase len ch1
      ⟨o.ch, e1 + o.events, o.bytes⟩

/-- A sequence of mixing callbacks applied to a single channel; returns the
final channel, the total completion-event count and the total byte count. -/
def mixRun (t : Nat) (ch : Channel) : List Nat → Channel × Nat × Nat
  | [] => (ch, 0, 0)
  | len :: rest =>
    let o := mixTick1 t len ch
    match mixRun t o.ch rest with
    | (ch2, e2, b2) => (ch2, o.events + e2, o.bytes + b2)

/-- The per-channel loop of `mix_channels` over the bank, carrying the
absolute channel index; events are the completion-callback invocations in
program order. -/
def mixChansGo (t len : Nat) : Nat → List Channel → List Channel × List Nat
  | _, [] => ([], [])
  | i, ch :: rest =>
    let o := mixTick1 t len ch
    match mixChansGo t len (i + 1) rest with
    | (rest1, evs) => (o.ch :: rest1, List.replicate o.events i ++ evs)

/-- The mixing callback `mix_channels` (state-relevant part): every channel
is processed in ascending index order.  Filling the output with silence,
the music bus and the post-effect chain do not touch channel state and are
not modelled. -/
def mix_channels (t len : Nat) (m : Mixer) : Mixer × List Nat :=
  match mixChansGo t len 0 m.channels with
  | (chs, evs) => ({ m with channels := chs }, evs)

/-- A sequence of mixing callbacks over the whole bank. -/
def mixBankRun (t : Nat) (m : Mixer) : List Nat → Mixer × List Nat
  | [] => (m, [])
  | len :: rest =>
    match mix_channels t len m with
    | (m1, e1) =>
      match mixBankRun t m1 rest with
      | (m2, e2) => (m2, e1 ++ e2)

/-! ## Control-side API (playback control, chunk lifecycle) -/

/-- The `while (chunk->alen % frame_width) chunk->alen--;` loop of
`checkchunkintegral` (each iteration decrements `alen`, so structural
recursion on `alen` captures it exactly: `0 % fw = 0` stops the loop). -/
def chunkTruncLoop (fw : Nat) : Nat → Nat
  | 0 => 0
  | a + 1 => if (a + 1) % fw ≠ 0 then chunkTruncLoop fw a else a + 1

/-- `checkchunkintegral`: truncates `chunk->alen` in place down to a
multiple of the device frame width and returns the (new) length. -/
def checkchunkintegral (spec : AudioSpec) (c : Mix_Chunk) : Mix_Chunk × Nat :=
  let a := chunkTruncLoop (frameWidth spec) c.alen
  ({ c with alen := a }, a)

/-- `Mix_PlayChannelTimed`.  Returns the updated bank, the (possibly
truncated) chunk, the `which` result and the completion events fired
(the eager notification when an already-playing channel is overwritten).
`t` is `LR_GetTicks()`. -/
def Mix_PlayChannelTimed (t : Nat) (spec : AudioSpec) (m : Mixer) (which : Int)
    (chunk? : Option Mix_Chunk) (loops ticks : Int) :
    Mixer × Option Mix_Chunk × Int × List Nat :=
  match chunk? with
  | none => (m, none, -1, [])
  | some c0 =>
    match checkchunkintegral spec c0 with
    | (c, r) =>
      if r = 0 then (m, some c, -1, [])
      else
        let which1 : Int :=
          if which = -1 then
            match (List.range' m.reservedChannels (m.channels.length - m.reservedChannels)).find?
                (fun i => decide ((m.channels.getD i default).playing ≤ 0)) with
            | some i => (i : Int)
            | none => -1
          else which
        if 0 ≤ which1 ∧ which1 < (m.channels.length : Int) then
          let i := which1.toNat
          let ch := m.channels.getD i default
          let evs := if channelActive ch then [i] else []
          let chNew : Channel :=
            { ch with samplesPos := 0, playing := (c.alen : Int), looping := loops,
                      chunk := some c, paused := 0, fading := Mix_Fading.noFading,
                      start_time := t,
                      expire := if 0 < ticks then u32add t ticks.toNat else 0 }
          ({ m with channels := m.channels.set i chNew }, some c, which1, evs)
        else (m, some c, which1, [])

/-- The single-channel body of `Mix_HaltChannel` (mixer.c lines 717-729):
fires the completion event and zeroes `playing`/`looping` only when the
channel was playing, always clears `expire`, restores the pre-fade volume
when a fade was active, and always clears the fade flag. -/
def haltChannel1 (ch : Channel) : Channel × Nat :=
  match (if ch.playing ≠ 0 then ({ ch with playing := 0, looping := 0 }, 1) else (ch, 0)) with
  | (ch1, e) =>
    let ch2 := { ch1 with expire := 0 }
    let ch3 := if ch2.fading ≠ Mix_Fading.noFading
      then { ch2 with volume := ch2.fade_volume_reset } else ch2
    ({ ch3 with fading := Mix_Fading.noFading }, e)

/-- `Mix_HaltChannel(i)` for one in-range channel index. -/
def haltAt (m : Mixer) (i : Nat) : Mixer × List Nat :=
  match haltChannel1 (m.channels.getD i default) with
  | (ch1, e) => ({ m with channels := m.channels.set i ch1 }, List.replicate e i)

/-- Successive `Mix_HaltChannel(i)` calls over a list of in-range indices
(the `-1` broadcast and the shrink loop of `Mix_AllocateChannels`). -/
def haltAll (m : Mixer) : List Nat → Mixer × List Nat
  | [] => (m, [])
  | i :: rest =>
    match haltAt m i with
    | (m1, e1) =>
      match haltAll m1 rest with
      | (m2, e2) => (m2, e1 ++ e2)

/-- `Mix_HaltChannel`.  Besides the state and events, returns the raw list
of channel-array indices the C code reads or writes (the `which < 0`
branch dereferences `mix_channel[which]` out of bounds: the access is
recorded, the state left unmodelled/unchanged). -/
def Mix_HaltChannel (m : Mixer) (which : Int) : Mixer × List Nat × List Int :=
  if which = -1 then
    match haltAll m (List.range m.channels.length) with
    | (m1, evs) => (m1, evs, (List.range m.channels.length).map (fun i => (i : Int)))
  else if which < (m.channels.length : Int) then
    if 0 ≤ which then
      match haltAt m which.toNat with
      | (m1, evs) => (m1, evs, [which])
    else (m, [], [which])
  else (m, [], [])

/-- `Mix_Volume`.  Returns the state, the previous-volume result and the
raw channel-array indices accessed (see `Mix_HaltChannel`). -/
def Mix_Volume (m : Mixer) (which volume : Int) : Mixer × Int × List Int :=
  if which = -1 then
    let n := m.channels.length
    let channels := m.channels.map (fun ch => (volumeCore ch volume).1)
    let s := (m.channels.map (fun ch => (volumeCore ch volume).2)).sum
    ({ m with channels := channels }, s / (n : Int), (List.range n).map (fun i => (i : Int)))
  else if which < (m.channels.length : Int) then
    if 0 ≤ which then
      match volumeCore (m.channels.getD which.toNat default) volume with
      | (ch1, prev) => ({ m with channels := m.channels.set which.toNat ch1 }, prev, [which])
    else (m, 0, [which])
  else (m, 0, [])

/-- `Mix_Playing`: count (for `-1`) or 0/1 status, plus accessed indices. -/
def Mix_Playing (m : Mixer) (which : Int) : Nat × List Int :=
  if which = -1 then
    (m.channels.countP (fun ch => channelActive ch),
     (List.range m.channels.length).map (fun i => (i : Int)))
  else if which < (m.channels.length : Int) then
    if 0 ≤ which then
      ((if channelActive (m.channels.getD which.toNat default) then 1 else 0), [which])
    else (0, [which])
  else (0, [])

/-- `Mix_GroupChannel`: rejects `which < 0 || which > num_channels`, then
writes `mix_channel[which].tag` — which is one past the end when
`which == num_channels` (access recorded, state unchanged). -/
def Mix_GroupChannel (m : Mixer) (which tag : Int) : Mixer × Int × List Int :=
  if which < 0 ∨ (m.channels.length : Int) < which then (m, 0, [])
  else if which < (m.channels.length : Int) then
    let ch1 := { m.channels.getD which.toNat default with tag := tag }
    ({ m with channels := m.channels.set which.toNat ch1 }, 1, [which])
  else (m, 1, [which])

/-- The per-channel body of `Mix_Pause`: stamp the current tick only when
the channel is actively playing. -/
def pauseCore (t : Nat) (ch : Channel) : Channel :=
  if 0 < ch.playing then { ch with paused := t } else ch

/-- The per-channel body of `Mix_Resume`: when playing, shift a nonzero
expiration deadline by the elapsed paused time and clear the stamp. -/
def resumeCore (t : Nat) (ch : Channel) : Channel :=
  if 0 < ch.playing then
    let ch1 := if 0 < ch.expire
      then { ch with expire := u32add ch.expire (u32sub t ch.paused) } else ch
    { ch1 with paused := 0 }
  else ch

/-- `Mix_Pause` (the C code has the same missing lower-bound guard as
`Mix_Volume`; the model only covers `-1` and in-range indices, which is
all the claims exercise). -/
def Mix_Pause (t : Nat) (m : Mixer) (which : Int) : Mixer :=
  if which = -1 then { m with channels := m.channels.map (pauseCore t) }
  else if which < (m.channels.length : Int) then
    if 0 ≤ which then
      let ch1 := pauseCore t (m.channels.getD which.toNat default)
      { m with channels := m.channels.set which.toNat ch1 }
    else m
  else m

/-- `Mix_Resume`. -/
def Mix_Resume (t : Nat) (m : Mixer) (which : Int) : Mixer :=
  if which = -1 then { m with channels := m.channels.map (resumeCore t) }
  else if which < (m.channels.length : Int) then
    if 0 ≤ which then
      let ch1 := resumeCore t (m.channels.getD which.toNat default)
      { m with channels := m.channels.set which.toNat ch1 }
    else m
  else m

/-- Primitive actions of `Mix_FreeChunk`, in execution order.
`doneCallback` is never emitted by `Mix_FreeChunk` — the C code zeroes
`playing`/`looping` without calling `_Mix_channel_done_playing`. -/
inductive FreeEvent where
  | doneCallback (i : Nat)
  | stopChannel (i : Nat)
  | freeBuf (id : Nat)
  | freeChunkStruct
deriving DecidableEq, Repr, Inhabited

/-- The stop loop of `Mix_FreeChunk`: every channel whose chunk pointer
equals the freed chunk gets `playing = 0; looping = 0`, in ascending
index order. -/
def freeStops (c : Mix_Chunk) : Nat → List Channel → List Channel × List FreeEvent
  | _, [] => ([], [])
  | i, ch :: rest =>
    match freeStops c (i + 1) rest with
    | (rest1, evs) =>
      if ch.chunk = some c then
        ({ ch with playing := 0, looping := 0 } :: rest1, FreeEvent.stopChannel i :: evs)
      else (ch :: rest1, evs)

/-- `Mix_FreeChunk`: stop every referencing channel, then release the
sample buffer (only when the chunk owns it), then the chunk struct. -/
def Mix_FreeChunk (m : Mixer) (c : Mix_Chunk) : Mixer × List FreeEvent :=
  match freeStops c 0 m.channels with
  | (chs, evs) =>
    ({ m with channels := chs },
     evs ++ (if c.allocated then [FreeEvent.freeBuf c.id] else []) ++ [FreeEvent.freeChunkStruct])

/-- The field initialisation performed for each new channel by
`Mix_OpenAudio` / the grow branch of `Mix_AllocateChannels`
(`samplesPos`, `start_time`, `fade_length`, `ticks_fade` are left
uninitialised by the C code and survive from the `realloc` garbage). -/
def initChannelFields (ch : Channel) : Channel :=
  { ch with chunk := none, playing := 0, looping := 0, volume := MIX_MAX_VOLUME,
            fade_volume := MIX_MAX_VOLUME, fade_volume_reset := MIX_MAX_VOLUME,
            fading := Mix_Fading.noFading, tag := -1, expire := 0,
            effects := [], paused := 0 }

/-- `Mix_AllocateChannels`: `numchans < 0` or `== num_channels` is a no-op
query; shrinking first halts the removed range, then reallocates; growing
reallocates and initialises the new slots.  `garbage` stands for the
uninitialised memory `realloc` hands back for new slots. -/
def Mix_AllocateChannels (m : Mixer) (numchans : Int) (garbage : Channel) :
    Mixer × Int × List Nat :=
  if numchans < 0 ∨ numchans = (m.channels.length : Int) then
    (m, (m.channels.length : Int), [])
  else
    let n := numchans.toNat
    let old := m.channels.length
    match (if numchans < (old : Int) then haltAll m (List.range' n (old - n)) else (m, [])) with
    | (m1, evs) =>
      let channels :=
        if old ≤ n then
          m1.channels ++ (List.replicate (n - old) garbage).map initChannelFields
        else m1.channels.take n
      ({ m1 with channels := channels }, (n : Int), evs)

/-! ## Basic lemmas -/

theorem u32sub_eq {a b : Nat} (hb : b ≤ a) (ha : a < U32M) : u32sub a b = a - b := by
  unfold u32sub U32M at *
  omega

theorem u32add_eq {a b : Nat} (h : a + b < U32M) : u32add a b = a + b := by
  unfold u32add U32M at *
  omega

theorem list_set_self {α : Type} (l : List α) (i : Nat) (a : α) (h : l[i]? = some a) :
    l.set i a = l := by
  induction l generalizing i with
  | nil => simp at h
  | cons x xs ih =>
    cases i with
    | zero => simp at h; simp [h]
    | succ j => simp at h ⊢; exact ih j h

/-- A channel value with the defaults `Mix_OpenAudio` would give a fresh
channel; used as the base state of concrete test scenarios. -/
def baseChannel : Channel :=
  { chunk := none, playing := 0, paused := 0, samplesPos := 0, volume := MIX_MAX_VOLUME,
    looping := 0, tag := -1, expire := 0, start_time := 0, fading := Mix_Fading.noFading,
    fade_volume := MIX_MAX_VOLUME, fade_volume_reset := MIX_MAX_VOLUME, fade_length := 0,
    ticks_fade := 0, effects := [] }

/-! ## C9: failed play (null chunk / zero truncated length) -/

/-- Counterexample to C9 as stated: playing a misaligned 3-byte chunk on a
16-bit stereo device (frame width 4) returns -1, but the failed call has
mutated the chunk's `alen` field from 3 down to 0 via `checkchunkintegral`,
so the chunk's own fields are not unchanged. -/
theorem claim_C9_counterexample :
    (Mix_PlayChannelTimed 0 ⟨16, 2⟩ ⟨[baseChannel], 0⟩ 0
        (some ⟨7, 3, 128, true⟩) 0 0).2.2.1 = -1 ∧
    (Mix_PlayChannelTimed 0 ⟨16, 2⟩ ⟨[baseChannel], 0⟩ 0
        (some ⟨7, 3, 128, true⟩) 0 0).2.1 ≠ some ⟨7, 3, 128, true⟩ := by
  constructor
  · rfl
  · decide

/-- C9 (amended): with a null chunk the call returns -1 and mutates
nothing; with a chunk whose frame-truncated length is zero it returns -1
and mutates no channel state, the only mutation being the in-place
truncation of the chunk's `alen` down to 0. -/
theorem claim_C9 (t : Nat) (spec : AudioSpec) (m : Mixer) (which loops ticks : Int) :
    Mix_PlayChannelTimed t spec m which none loops ticks = (m, none, -1, []) ∧
    (∀ c0 : Mix_Chunk, chunkTruncLoop (frameWidth spec) c0.alen = 0 →
      Mix_PlayChannelTimed t spec m which (some c0) loops ticks =
        (m, some { c0 with alen := 0 }, -1, [])) := by
  constructor
  · rfl
  · intro c0 h
    simp [Mix_PlayChannelTimed, checkchunkintegral, h]

theorem claim_C9_witness :
    chunkTruncLoop (frameWidth ⟨16, 2⟩) (3 : Nat) = 0 ∧
    Mix_PlayChannelTimed 9 ⟨16, 2⟩ ⟨[baseChannel], 0⟩ 5 (some ⟨7, 3, 128, true⟩) 2 4 =
      (⟨[baseChannel], 0⟩, some ⟨7, 0, 128, true⟩, -1, []) :=
  ⟨by decide, (claim_C9 9 ⟨16, 2⟩ ⟨[baseChannel], 0⟩ 5 2 4).2 ⟨7, 3, 128, true⟩ (by decide)⟩

/-! ## C10: bounds behaviour of the single-channel control operations -/

/-- Counterexample to C10 as stated: `Mix_Volume` with the out-of-range
argument -2 dereferences `mix_channel[-2]` (the guard is only
`which < num_channels`), so an out-of-range argument does perform a
channel-array access. -/
theorem claim_C10_counterexample :
    (Mix_Volume ⟨[baseChannel, baseChannel], 0⟩ (-2) 5).2.2 = [-2] ∧ ((-2 : Int) < 0) := by
  decide

/-- C10 (amended): `set_volume`, `halt` and `is_playing` guard only the
upper bound: an argument ≥ `num_channels` performs no access and leaves
the bank unchanged, but a negative argument other than -1 accesses the
channel array at that negative index; `group` rejects `which < 0` and
`which > num_channels` without access, but accepts `which = num_channels`
and accesses one slot past the end. -/
theorem claim_C10 :
    (∀ (m : Mixer) (w v : Int), (m.channels.length : Int) ≤ w →
        Mix_Volume m w v = (m, 0, [])) ∧
    (∀ (m : Mixer) (w : Int), (m.channels.length : Int) ≤ w →
        Mix_HaltChannel m w = (m, [], [])) ∧
    (∀ (m : Mixer) (w : Int), (m.channels.length : Int) ≤ w →
        Mix_Playing m w = (0, [])) ∧
    (∀ (m : Mixer) (w tag : Int), w < 0 ∨ (m.channels.length : Int) < w →
        Mix_GroupChannel m w tag = (m, 0, [])) ∧
    (∀ (m : Mixer) (w v : Int), w < -1 →
        (Mix_Volume m w v).2.2 = [w] ∧ (Mix_Volume m w v).1 = m) ∧
    (∀ (m : Mixer) (w : Int), w < -1 → (Mix_HaltChannel m w).2.2 = [w]) ∧
    (∀ (m : Mixer) (w : Int), w < -1 → (Mix_Playing m w).2 = [w]) ∧
    (∀ (m : Mixer) (tag : Int),
        (Mix_GroupChannel m (m.channels.length : Int) tag).2.2 = [(m.channels.length : Int)]) := by
  refine ⟨?_, ?_, ?_, ?_, ?_, ?_, ?_, ?_⟩
  · intro m w v h
    have h1 : ¬ w = -1 := by omega
    have h2 : ¬ w < (m.channels.length : Int) := by omega
    simp [Mix_Volume, h1, h2]
  · intro m w h
    have h1 : ¬ w = -1 := by omega
    have h2 : ¬ w < (m.channels.length : Int) := by omega
    simp [Mix_HaltChannel, h1, h2]
  · intro m w h
    have h1 : ¬ w = -1 := by omega
    have h2 : ¬ w < (m.channels.length : Int) := by omega
    simp [Mix_Playing, h1, h2]
  · intro m w tag h
    simp [Mix_GroupChannel, h]
  · intro m w v h
    have h1 : ¬ w = -1 := by omega
    have h2 : w < (m.channels.length : Int) := by omega
    have h3 : ¬ (0 ≤ w) := by omega
    simp [Mix_Volume, h1, h2, h3]
  · intro m w h
    have h1 : ¬ w = -1 := by omega
    have h2 : w < (m.channels.length : Int) := by omega
    have h3 : ¬ (0 ≤ w) := by omega
    simp [Mix_HaltChannel, h1, h2, h3]
  · intro m w h
    have h1 : ¬ w = -1 := by omega
    have h2 : w < (m.channels.length : Int) := by omega
    have h3 : ¬ (0 ≤ w) := by omega
    simp [Mix_Playing, h1, h2, h3]
  · intro m tag
    have h0 : ¬ (m.channels.length : Int) < 0 := by omega
    have h1 : ¬ ((m.channels.length : Int) < 0 ∨
        (m.channels.length : Int) < (m.channels.length : Int)) := by omega
    have h2 : ¬ (m.channels.length : Int) < (m.channels.length : Int) := by omega
    simp [Mix_GroupChannel, h0, h1, h2]

theorem claim_C10_witness :
    Mix_Volume ⟨[baseChannel], 0⟩ 4 9 = (⟨[baseChannel], 0⟩, 0, []) ∧
    Mix_HaltChannel ⟨[baseChannel], 0⟩ 4 = (⟨[baseChannel], 0⟩, [], []) ∧
    Mix_Playing ⟨[baseChannel], 0⟩ 4 = (0, []) ∧
    Mix_GroupChannel ⟨[baseChannel], 0⟩ (-3) 7 = (⟨[baseChannel], 0⟩, 0, []) ∧
    (Mix_Volume ⟨[baseChannel], 0⟩ (-2) 9).2.2 = [-2] ∧
    (Mix_HaltChannel ⟨[baseChannel], 0⟩ (-2)).2.2 = [-2] ∧
    (Mix_Playing ⟨[baseChannel], 0⟩ (-2)).2 = [-2] ∧
    (Mix_GroupChannel ⟨[baseChannel], 0⟩ 1 7).2.2 = [1] :=
  ⟨claim_C10.1 ⟨[baseChannel], 0⟩ 4 9 (by decide),
   claim_C10.2.1 ⟨[baseChannel], 0⟩ 4 (by decide),
   claim_C10.2.2.1 ⟨[baseChannel], 0⟩ 4 (by decide),
   claim_C10.2.2.2.1 ⟨[baseChannel], 0⟩ (-3) 7 (Or.inl (by decide)),
   (claim_C10.2.2.2.2.1 ⟨[baseChannel], 0⟩ (-2) 9 (by decide)).1,
   claim_C10.2.2.2.2.2.1 ⟨[baseChannel], 0⟩ (-2) (by decide),
   claim_C10.2.2.2.2.2.2.1 ⟨[baseChannel], 0⟩ (-2) (by decide),
   claim_C10.2.2.2.2.2.2.2 ⟨[baseChannel], 0⟩ 7⟩

/-! ## C7: Mix_FreeChunk stops referencing channels before freeing -/

theorem freeStops_channels (c : Mix_Chunk) :
    ∀ (chs : List Channel) (k : Nat),
      (freeStops c k chs).1 =
        chs.map (fun ch => if ch.chunk = some c
          then { ch with playing := 0, looping := 0 } else ch) := by
  intro chs
  induction chs with
  | nil => intro k; simp [freeStops]
  | cons ch rest ih =>
    intro k
    simp only [freeStops, List.map_cons]
    by_cases h : ch.chunk = some c
    · simp [h, ih]
    · simp [h, ih]

theorem freeStops_events_shape (c : Mix_Chunk) :
    ∀ (chs : List Channel) (k : Nat) (e : FreeEvent),
      e ∈ (freeStops c k chs).2 → ∃ i, e = FreeEvent.stopChannel i := by
  intro chs
  induction chs with
  | nil => intro k e he; simp [freeStops] at he
  | cons ch rest ih =>
    intro k e he
    simp only [freeStops] at he
    by_cases h : ch.chunk = some c
    · simp [h] at he
      rcases he with he | he
      · exact ⟨k, he⟩
      · exact ih (k + 1) e he
    · simp [h] at he
      exact ih (k + 1) e he

/-- C7: `destroy(chunk)` zeroes `playing`/`looping` on exactly the channels
whose chunk reference equals the freed chunk, every stop action precedes
the buffer release in the action trace, and the sample buffer is released
iff the chunk owns it (`allocated`). -/
theorem claim_C7 (m : Mixer) (c : Mix_Chunk) :
    (∀ (i : Nat) (ch : Channel), m.channels[i]? = some ch →
        (Mix_FreeChunk m c).1.channels[i]? =
          some (if ch.chunk = some c then { ch with playing := 0, looping := 0 } else ch)) ∧
    (∀ (j k i b : Nat), (Mix_FreeChunk m c).2[j]? = some (FreeEvent.stopChannel i) →
        (Mix_FreeChunk m c).2[k]? = some (FreeEvent.freeBuf b) → j < k) ∧
    (FreeEvent.freeBuf c.id ∈ (Mix_FreeChunk m c).2 ↔ c.allocated = true) := by
  have hch : (Mix_FreeChunk m c).1.channels = (freeStops c 0 m.channels).1 := by
    simp [Mix_FreeChunk]
  have hev : (Mix_FreeChunk m c).2 =
      (freeStops c 0 m.channels).2 ++
        ((if c.allocated then [FreeEvent.freeBuf c.id] else []) ++ [FreeEvent.freeChunkStruct]) := by
    simp [Mix_FreeChunk]
  refine ⟨?_, ?_, ?_⟩
  · intro i ch hi
    rw [hch, freeStops_channels, List.getElem?_map, hi]
    rfl
  · intro j k i b hj hk
    rw [hev] at hj hk
    set evs := (freeStops c 0 m.channels).2 with hevs
    set tail := (if c.allocated then [FreeEvent.freeBuf c.id] else []) ++
      [FreeEvent.freeChunkStruct] with htail
    have hjlt : j < evs.length := by
      by_contra hge
      rw [List.getElem?_append] at hj
      rw [if_neg hge] at hj
      have hmem : FreeEvent.stopChannel i ∈ tail := List.getElem?_mem hj
      rw [htail] at hmem
      by_cases ha : c.allocated <;> simp [ha] at hmem
    have hkge : evs.length ≤ k := by
      by_contra hlt
      rw [List.getElem?_append, if_pos (by omega)] at hk
      have hmem : FreeEvent.freeBuf b ∈ evs := List.getElem?_mem hk
      rcases freeStops_events_shape c m.channels 0 _ hmem with ⟨i2, hi2⟩
      simp at hi2
    omega
  · rw [hev]
    constructor
    · intro hmem
      rcases List.mem_append.mp hmem with h1 | h2
      · rcases freeStops_events_shape c m.channels 0 _ h1 with ⟨i2, hi2⟩
        simp at hi2
      · by_cases ha : c.allocated
        · exact ha
        · simp [ha] at h2
    · intro ha
      apply List.mem_append.mpr
      right
      simp [ha]

theorem claim_C7_witness :
    (Mix_FreeChunk ⟨[{ baseChannel with chunk := some ⟨3, 8, 128, true⟩, playing := 8 }], 0⟩
        ⟨3, 8, 128, true⟩).1.channels[0]? =
      some { baseChannel with chunk := some ⟨3, 8, 128, true⟩, playing := 0, looping := 0 } ∧
    (FreeEvent.freeBuf 3 ∈
      (Mix_FreeChunk ⟨[{ baseChannel with chunk := some ⟨3, 8, 128, true⟩, playing := 8 }], 0⟩
        ⟨3, 8, 128, true⟩).2 ↔ (true = true)) := by
  constructor
  · have h := (claim_C7 ⟨[{ baseChannel with chunk := some ⟨3, 8, 128, true⟩, playing := 8 }], 0⟩
      ⟨3, 8, 128, true⟩).1 0 { baseChannel with chunk := some ⟨3, 8, 128, true⟩, playing := 8 }
      (by decide)
    rw [h]
    decide
  · exact (claim_C7 ⟨[{ baseChannel with chunk := some ⟨3, 8, 128, true⟩, playing := 8 }], 0⟩
      ⟨3, 8, 128, true⟩).2.2

/-! ## Tick-phase helper lemmas -/

theorem tickPhase1_inert (t : Nat) (ch : Channel) (hex : ch.expire = 0)
    (hfa : ch.fading = Mix_Fading.noFading) : tickPhase1 t ch = (ch, 0) := by
  simp [tickPhase1, hex, hfa]

theorem mixTick1_eq (t len : Nat) (ch : Channel) (hpa : ch.paused = 0) :
    mixTick1 t len ch =
      ⟨(mixPhase len (tickPhase1 t ch).1).ch,
       (tickPhase1 t ch).2 + (mixPhase len (tickPhase1 t ch).1).events,
       (mixPhase len (tickPhase1 t ch).1).bytes⟩ := by
  rcases h : tickPhase1 t ch with ⟨ch1, e1⟩
  simp [mixTick1, hpa, h]

theorem mixPhase_nonpos (len : Nat) (ch : Channel) (h : ¬ 0 < ch.playing) :
    mixPhase len ch = ⟨ch, 0, 0⟩ := by
  simp [mixPhase, h]

theorem mixPhase_keeps (len : Nat) (ch : Channel) :
    (mixPhase len ch).ch.chunk = ch.chunk ∧
    (mixPhase len ch).ch.paused = ch.paused ∧
    (mixPhase len ch).ch.volume = ch.volume ∧
    (mixPhase len ch).ch.expire = ch.expire ∧
    (mixPhase len ch).ch.fading = ch.fading ∧
    (mixPhase len ch).ch.fade_volume = ch.fade_volume ∧
    (mixPhase len ch).ch.fade_volume_reset = ch.fade_volume_reset ∧
    (mixPhase len ch).ch.fade_length = ch.fade_length ∧
    (mixPhase len ch).ch.ticks_fade = ch.ticks_fade := by
  unfold mixPhase
  by_cases hp : 0 < ch.playing
  · rw [if_pos hp]
    cases hc : ch.chunk with
    | none => simp [hc]
    | some c =>
      rcases hs : sampleLoop (len + 1) len ch.looping ch.playing ch.samplesPos 0 0 with
        ⟨p1, s1, i1, e1⟩
      rcases hw : loopWrap len c.alen ch.looping s1 p1 len i1 with ⟨l2, s2, p2, i2⟩
      simp only [hc, hs, hw]
      by_cases hfix : p2 = 0 ∧ ¬ l2 = 0
      · simp [hfix]
      · simp [hfix]
  · simp [hp]

theorem volumeCore_set (ch : Channel) (v : Nat) (hv : v ≤ MIX_MAX_VOLUME) :
    (volumeCore ch ((v : Nat) : Int)).1 = { ch with volume := v } := by
  simp only [volumeCore]
  rw [if_pos (Int.natCast_nonneg v), if_neg (by exact_mod_cast Nat.not_lt.mpr hv)]
  simp

theorem tickPhase1_fade_interp_out (t : Nat) (ch : Channel) (hex : ch.expire = 0)
    (hfa : ch.fading = Mix_Fading.fadingOut)
    (hle : u32sub t ch.ticks_fade ≤ ch.fade_length) :
    tickPhase1 t ch =
      ((volumeCore ch ((ch.fade_volume * (ch.fade_length - u32sub t ch.ticks_fade) % U32M /
          ch.fade_length : Nat) : Int)).1, 0) := by
  have hfne : ch.fading ≠ Mix_Fading.noFading := by simp [hfa]
  have hg1 : ¬ (0 < ch.expire ∧ ch.expire < t) := by simp [hex]
  simp only [tickPhase1, if_neg hg1, if_pos hfne, if_neg (Nat.not_lt.mpr hle), if_pos hfa]

theorem tickPhase1_fade_final_out (t : Nat) (ch : Channel) (hex : ch.expire = 0)
    (hfa : ch.fading = Mix_Fading.fadingOut)
    (hgt : ch.fade_length < u32sub t ch.ticks_fade) :
    tickPhase1 t ch =
      ({ (volumeCore ch (ch.fade_volume_reset : Int)).1 with
          playing := 0
          looping := 0
          expire := 0
          fading := Mix_Fading.noFading }, 1) := by
  have hfne : ch.fading ≠ Mix_Fading.noFading := by simp [hfa]
  have hg1 : ¬ (0 < ch.expire ∧ ch.expire < t) := by simp [hex]
  have hfd : ((volumeCore ch (ch.fade_volume_reset : Int)).1).fading = Mix_Fading.fadingOut := by
    simp only [volumeCore]
    by_cases h : (0 : Int) ≤ (ch.fade_volume_reset : Int)
    · rw [if_pos h]; exact hfa
    · rw [if_neg h]; exact hfa
  simp only [tickPhase1, if_neg hg1, if_pos hfne, if_pos hgt, if_pos hfd]

/-! ## C5: expiration stop versus halt -/

/-- A concrete fading-out channel whose expiration deadline (5) has passed. -/
def chC5a : Channel :=
  { baseChannel with
      chunk := some ⟨1, 10, 128, true⟩
      playing := 10
      expire := 5
      fading := Mix_Fading.fadingOut
      volume := 37
      fade_volume_reset := 100 }

/-- Counterexample to C5 as stated: on a fading-out channel whose
expiration deadline has passed, the expiration path of the mixing
callback leaves the channel volume at its current faded value (37), while
`Mix_HaltChannel` would restore the pre-fade reset value (100) — so the
resulting state does not equal the state halt would produce. -/
theorem claim_C5_counterexample :
    (mixTick1 6 0 chC5a).ch ≠ (haltChannel1 chC5a).1 ∧
    (mixTick1 6 0 chC5a).ch.volume = 37 ∧ (haltChannel1 chC5a).1.volume = 100 := by
  refine ⟨by decide, by decide, by decide⟩

/-- C5 (amended): when the mixing callback finds an unpaused playing
channel whose nonzero expiration deadline has passed, it force-stops it
(playing, looping, expire zeroed, fade flag cleared) and fires exactly one
completion event, leaving the volume untouched; the resulting state and
event count coincide with `Mix_HaltChannel`'s exactly when no fade was in
progress (halt additionally restores the pre-fade volume). -/
theorem claim_C5 (t len : Nat) (ch : Channel) (hpa : ch.paused = 0)
    (he1 : 0 < ch.expire) (he2 : ch.expire < t) (hp : ch.playing ≠ 0) :
    ((mixTick1 t len ch).ch.volume = ch.volume ∧
     (mixTick1 t len ch).ch.playing = 0 ∧
     (mixTick1 t len ch).ch.looping = 0 ∧
     (mixTick1 t len ch).ch.expire = 0 ∧
     (mixTick1 t len ch).ch.fading = Mix_Fading.noFading ∧
     (mixTick1 t len ch).events = 1) ∧
    (ch.fading = Mix_Fading.noFading →
      (mixTick1 t len ch).ch = (haltChannel1 ch).1 ∧
      (mixTick1 t len ch).events = (haltChannel1 ch).2) := by
  have hph : tickPhase1 t ch =
      ({ ch with playing := 0, looping := 0, fading := Mix_Fading.noFading, expire := 0 }, 1) := by
    simp [tickPhase1, he1, he2]
  have hmp : mixPhase len (tickPhase1 t ch).1 = ⟨(tickPhase1 t ch).1, 0, 0⟩ := by
    apply mixPhase_nonpos
    rw [hph]
    simp
  rw [mixTick1_eq t len ch hpa, hmp, hph]
  refine ⟨⟨rfl, rfl, rfl, rfl, rfl, rfl⟩, ?_⟩
  intro hfa
  constructor
  · simp [haltChannel1, hp, hfa]
  · simp [haltChannel1, hp]

/-- A concrete non-fading playing channel with a passed deadline. -/
def chC5b : Channel :=
  { baseChannel with chunk := some ⟨1, 10, 128, true⟩, playing := 10, expire := 5 }

theorem claim_C5_witness :
    ((0 : Nat) < chC5b.expire ∧ chC5b.expire < 6 ∧ chC5b.playing ≠ 0) ∧
    (mixTick1 6 0 chC5b).ch = (haltChannel1 chC5b).1 :=
  ⟨⟨by decide, by decide, by decide⟩,
   ((claim_C5 6 0 chC5b rfl (by decide) (by decide) (by decide)).2 rfl).1⟩

/-! ## C4: pause freezes the expiration countdown -/

/-- C4: pausing a playing channel stamps the pause tick; resuming shifts a
nonzero expiration deadline forward by exactly the elapsed paused time and
clears the stamp; pause and resume are no-ops on channels that are not
currently playing. -/
theorem claim_C4 (m : Mixer) (i : Nat) (ch : Channel) (T0 T1 E : Nat)
    (hch : m.channels[i]? = some ch) (hp : 0 < ch.playing)
    (hE : ch.expire = E) (hE0 : 0 < E)
    (h01 : T0 ≤ T1) (h1 : T1 < U32M) (hsum : E + (T1 - T0) < U32M) :
    (Mix_Pause T0 m (i : Int)).channels[i]? = some { ch with paused := T0 } ∧
    (Mix_Resume T1 (Mix_Pause T0 m (i : Int)) (i : Int)).channels[i]? =
      some { ch with paused := 0, expire := E + (T1 - T0) } ∧
    (∀ (m2 : Mixer) (j : Nat) (ch2 : Channel) (t : Nat),
        m2.channels[j]? = some ch2 → ch2.playing ≤ 0 →
        Mix_Pause t m2 (j : Int) = m2 ∧ Mix_Resume t m2 (j : Int) = m2) := by
  have hilen : i < m.channels.length := (List.getElem?_eq_some.mp hch).1
  have hne : ((i : Nat) : Int) ≠ -1 := by omega
  have hlt : ((i : Nat) : Int) < (m.channels.length : Int) := by
    exact_mod_cast Int.ofNat_lt.mpr hilen
  have hge : (0 : Int) ≤ ((i : Nat) : Int) := by omega
  have hgd : m.channels.getD i default = ch := by
    simp [List.getD_eq_getElem?_getD, hch]
  have htonat : (((i : Nat) : Int)).toNat = i := by omega
  have hpause : Mix_Pause T0 m (i : Int) =
      { m with channels := m.channels.set i { ch with paused := T0 } } := by
    simp only [Mix_Pause, if_neg hne, if_pos hlt, if_pos hge, htonat, hgd]
    simp [pauseCore, hp]
  have hpget : (Mix_Pause T0 m (i : Int)).channels[i]? = some { ch with paused := T0 } := by
    rw [hpause]
    simp [List.getElem?_set_self, hilen]
  refine ⟨hpget, ?_, ?_⟩
  · have hlen1 : (Mix_Pause T0 m (i : Int)).channels.length = m.channels.length := by
      rw [hpause]; simp
    have hlt1 : ((i : Nat) : Int) < ((Mix_Pause T0 m (i : Int)).channels.length : Int) := by
      rw [hlen1]; exact hlt
    have hgd1 : (Mix_Pause T0 m (i : Int)).channels.getD i default = { ch with paused := T0 } := by
      simp [List.getD_eq_getElem?_getD, hpget]
    have hres : resumeCore T1 { ch with paused := T0 } =
        { ch with paused := 0, expire := E + (T1 - T0) } := by
      have hex1 : 0 < ch.expire := by omega
      have hs1 : u32sub T1 T0 = T1 - T0 := u32sub_eq h01 h1
      have hs2 : u32add ch.expire (T1 - T0) = E + (T1 - T0) := by
        rw [hE]
        exact u32add_eq (by omega)
      simp [resumeCore, hp, hex1, hs1, hs2]
    simp only [Mix_Resume, if_neg hne, if_pos hlt1, if_pos hge, htonat, hgd1, hres]
    rw [hpause]
    simp [List.set_set, List.getElem?_set_self, hilen]
  · intro m2 j ch2 t hch2 hnp
    have hjlen : j < m2.channels.length := (List.getElem?_eq_some.mp hch2).1
    have hne2 : ((j : Nat) : Int) ≠ -1 := by omega
    have hlt2 : ((j : Nat) : Int) < (m2.channels.length : Int) := by
      exact_mod_cast Int.ofNat_lt.mpr hjlen
    have hge2 : (0 : Int) ≤ ((j : Nat) : Int) := by omega
    have htonat2 : (((j : Nat) : Int)).toNat = j := by omega
    have hgd2 : m2.channels.getD j default = ch2 := by
      simp [List.getD_eq_getElem?_getD, hch2]
    have hnp2 : ¬ (0 : Int) < ch2.playing := by omega
    constructor
    · simp only [Mix_Pause, if_neg hne2, if_pos hlt2, if_pos hge2, htonat2, hgd2]
      rw [pauseCore, if_neg hnp2, list_set_self m2.channels j ch2 hch2]
    · simp only [Mix_Resume, if_neg hne2, if_pos hlt2, if_pos hge2, htonat2, hgd2]
      rw [resumeCore, if_neg hnp2, list_set_self m2.channels j ch2 hch2]

/-- A concrete playing channel with deadline 1500 for the C4 scenario. -/
def chC4w : Channel := { baseChannel with playing := 10, expire := 1500 }

theorem claim_C4_witness :
    ((⟨[chC4w], 0⟩ : Mixer).channels[0]? = some chC4w ∧
      (0 : Int) < chC4w.playing ∧ (0 : Nat) < 1500 ∧ (1000 : Nat) ≤ 1300) ∧
    (Mix_Resume 1300 (Mix_Pause 1000 ⟨[chC4w], 0⟩ ((0 : Nat) : Int)) ((0 : Nat) : Int)).channels[0]? =
      some { chC4w with paused := 0, expire := 1800 } :=
  ⟨⟨by decide, by decide, by decide, by decide⟩,
   (claim_C4 ⟨[chC4w], 0⟩ 0 chC4w 1000 1300 1500
      (by decide) (by decide) (by decide) (by decide) (by decide) (by decide) (by decide)).2.1⟩

/-! ## C3: fade-out interpolation and finalisation -/

/-- A fading-out channel: duration 10, fade volume 100, reset value 90. -/
def chC3a : Channel :=
  { baseChannel with
      fading := Mix_Fading.fadingOut
      fade_volume := 100
      fade_length := 10
      ticks_fade := 0
      volume := 77
      fade_volume_reset := 90 }

/-- Counterexample to C3 as stated: a fade-out with duration D = 10 and
fade volume 100 sampled at elapsed exactly D is *not* finalised (the code
tests `ticks > fade_length`, strictly): the fade flag stays set, the
channel is not stopped, and the volume becomes `100*(10-10)/10 = 0`
instead of the reset value 90. -/
theorem claim_C3_counterexample :
    (mixTick1 10 0 chC3a).ch.fading = Mix_Fading.fadingOut ∧
    (mixTick1 10 0 chC3a).ch.volume = 0 ∧
    (mixTick1 10 0 chC3a).ch.volume ≠ 90 ∧
    (mixTick1 10 0 chC3a).events = 0 := by
  refine ⟨by decide, by decide, by decide, by decide⟩

/-- C3 (amended): for a fading-out channel with fade volume V ≤ MAX and
duration D > 0 (no expiration, unpaused), a mixing tick at elapsed `D/2`
sets the volume to `(V*(D - D/2) mod 2^32)/D` — the product is computed in
32-bit unsigned arithmetic and wraps for large durations — and keeps the
fade in progress, and a mixing tick at any elapsed *strictly greater* than
D finalises the fade: volume restored to the recorded reset value, channel
force-stopped (playing = 0, looping = 0, expiration cleared), one
completion event fired, fade state cleared.  (At elapsed = D exactly the
code does not finalise; the claim's `elapsed >= D` is off by one.) -/
theorem claim_C3 (ch : Channel) (D V R T : Nat)
    (hpa : ch.paused = 0) (hex : ch.expire = 0) (hfa : ch.fading = Mix_Fading.fadingOut)
    (hD : 0 < D) (hdl : ch.fade_length = D) (hv : ch.fade_volume = V)
    (hV : V ≤ MIX_MAX_VOLUME) (hr : ch.fade_volume_reset = R) (hR : R ≤ MIX_MAX_VOLUME)
    (htf : ch.ticks_fade = T) (hTD : T + D < U32M) :
    (∀ len : Nat,
        (mixTick1 (T + D / 2) len ch).ch.volume = V * (D - D / 2) % U32M / D ∧
        (mixTick1 (T + D / 2) len ch).ch.fading = Mix_Fading.fadingOut) ∧
    (∀ (len e : Nat), D < e → T + e < U32M →
        (mixTick1 (T + e) len ch).ch.volume = R ∧
        (mixTick1 (T + e) len ch).ch.playing = 0 ∧
        (mixTick1 (T + e) len ch).ch.looping = 0 ∧
        (mixTick1 (T + e) len ch).ch.expire = 0 ∧
        (mixTick1 (T + e) len ch).ch.fading = Mix_Fading.noFading ∧
        (mixTick1 (T + e) len ch).events = 1) := by
  constructor
  · intro len
    have hU : T + D / 2 < U32M := by omega
    have hticks : u32sub (T + D / 2) ch.ticks_fade = D / 2 := by
      rw [htf, u32sub_eq (by omega) hU]
      omega
    have hle2 : u32sub (T + D / 2) ch.ticks_fade ≤ ch.fade_length := by
      rw [hticks, hdl]
      omega
    have hval : V * (D - D / 2) % U32M / D ≤ MIX_MAX_VOLUME := by
      have hr1 : V * (D - D / 2) % U32M ≤ V * (D - D / 2) := Nat.mod_le _ _
      have h1 : V * (D - D / 2) ≤ V * D := Nat.mul_le_mul_left V (by omega)
      have h2 : V * D + D = (V + 1) * D := by rw [Nat.succ_mul]
      have h3 : V * (D - D / 2) % U32M < (V + 1) * D := by omega
      have h4 : V * (D - D / 2) % U32M / D < V + 1 := (Nat.div_lt_iff_lt_mul hD).mpr h3
      omega
    have hphase : tickPhase1 (T + D / 2) ch
        = ({ ch with volume := V * (D - D / 2) % U32M / D }, 0) := by
      rw [tickPhase1_fade_interp_out _ ch hex hfa hle2, hticks]
      rw [show ch.fade_volume * (ch.fade_length - D / 2) % U32M / ch.fade_length
            = V * (D - D / 2) % U32M / D from by rw [hdl, hv]]
      rw [volumeCore_set ch (V * (D - D / 2) % U32M / D) hval]
    rw [mixTick1_eq _ len ch hpa, hphase]
    have hk := mixPhase_keeps len { ch with volume := V * (D - D / 2) % U32M / D }
    refine ⟨by rw [hk.2.2.1], ?_⟩
    rw [hk.2.2.2.2.1]
    exact hfa
  · intro len e hDe hTe
    have hticks : u32sub (T + e) ch.ticks_fade = e := by
      rw [htf, u32sub_eq (by omega) hTe]
      omega
    have hgt : ch.fade_length < u32sub (T + e) ch.ticks_fade := by
      rw [hticks, hdl]
      omega
    have hphase : tickPhase1 (T + e) ch =
        ({ ({ ch with volume := R } : Channel) with playing := 0, looping := 0, expire := 0, fading := Mix_Fading.noFading }, 1) := by
      rw [tickPhase1_fade_final_out _ ch hex hfa hgt]
      rw [show (volumeCore ch (ch.fade_volume_reset : Int)).1 = { ch with volume := R } from by
            conv_lhs => rw [hr]
            exact volumeCore_set ch R hR]
    have hmp : mixPhase len (tickPhase1 (T + e) ch).1 = ⟨(tickPhase1 (T + e) ch).1, 0, 0⟩ := by
      apply mixPhase_nonpos
      rw [hphase]
      simp
    rw [mixTick1_eq _ len ch hpa, hmp, hphase]
    exact ⟨rfl, rfl, rfl, rfl, rfl, rfl⟩

/-- The same fading-out channel used to instantiate the C3 theorem. -/
def chC3b : Channel :=
  { baseChannel with
      fading := Mix_Fading.fadingOut
      fade_volume := 100
      fade_length := 10
      ticks_fade := 0
      volume := 77
      fade_volume_reset := 90 }

theorem claim_C3_witness :
    ((0 : Nat) < 10 ∧ (100 : Nat) ≤ MIX_MAX_VOLUME ∧ (90 : Nat) ≤ MIX_MAX_VOLUME ∧
      (0 : Nat) + 10 < U32M ∧ (10 : Nat) < 11 ∧ (0 : Nat) + 11 < U32M) ∧
    (mixTick1 (0 + 10 / 2) 3 chC3b).ch.volume = 100 * (10 - 10 / 2) % U32M / 10 ∧
    (mixTick1 (0 + 11) 3 chC3b).ch.volume = 90 ∧
    (mixTick1 (0 + 11) 3 chC3b).events = 1 := by
  have h := claim_C3 chC3b 10 100 90 0 rfl rfl rfl (by decide) rfl rfl (by decide) rfl
    (by decide) rfl (by decide)
  exact ⟨⟨by decide, by decide, by decide, by decide, by decide, by decide⟩,
    (h.1 3).1, (h.2 3 11 (by decide) (by decide)).1, (h.2 3 11 (by decide) (by decide)).2.2.2.2.2⟩

/-! ## C8: Mix_AllocateChannels -/

theorem haltChannel1_events (ch : Channel) :
    (haltChannel1 ch).2 = if ch.playing ≠ 0 then 1 else 0 := by
  by_cases hp : ch.playing ≠ 0 <;> simp [haltChannel1, hp]

theorem haltAt_length (m : Mixer) (i : Nat) :
    (haltAt m i).1.channels.length = m.channels.length := by
  simp [haltAt]

theorem haltAt_get_ne (m : Mixer) (i k : Nat) (h : i ≠ k) :
    (haltAt m i).1.channels[k]? = m.channels[k]? := by
  simp [haltAt, List.getElem?_set_ne h]

theorem haltAt_events (m : Mixer) (i : Nat) :
    (haltAt m i).2 = if (m.channels.getD i default).playing ≠ 0 then [i] else [] := by
  rcases hh : haltChannel1 (m.channels.getD i default) with ⟨ch1, e⟩
  have he : e = if (m.channels.getD i default).playing ≠ 0 then 1 else 0 := by
    have h2 := haltChannel1_events (m.channels.getD i default)
    rw [hh] at h2
    exact h2
  simp only [haltAt, hh, he]
  by_cases hp : (m.channels.getD i default).playing ≠ 0
  · rw [if_pos hp, if_pos hp]
    rfl
  · rw [if_neg hp, if_neg hp]
    rfl

theorem haltAll_length : ∀ (L : List Nat) (m : Mixer),
    (haltAll m L).1.channels.length = m.channels.length := by
  intro L
  induction L with
  | nil => intro m; simp [haltAll]
  | cons i rest ih =>
    intro m
    simp only [haltAll]
    rw [ih (haltAt m i).1, haltAt_length]

theorem haltAll_get_notmem : ∀ (L : List Nat) (m : Mixer) (k : Nat), k ∉ L →
    (haltAll m L).1.channels[k]? = m.channels[k]? := by
  intro L
  induction L with
  | nil => intro m k _; simp [haltAll]
  | cons i rest ih =>
    intro m k hk
    simp only [haltAll]
    rw [ih (haltAt m i).1 k (by simp at hk; exact hk.2)]
    exact haltAt_get_ne m i k (by simp at hk; omega)

theorem haltAll_range'_events : ∀ (cnt lo : Nat) (m : Mixer),
    (haltAll m (List.range' lo cnt)).2 =
      (List.range' lo cnt).filter (fun j => decide ((m.channels.getD j default).playing ≠ 0)) := by
  intro cnt
  induction cnt with
  | zero => intro lo m; simp [haltAll]
  | succ n ih =>
    intro lo m
    rw [List.range'_succ lo n 1]
    simp only [haltAll]
    rw [haltAt_events, ih (lo + 1) (haltAt m lo).1]
    have hcong : (List.range' (lo + 1) n).filter
        (fun j => decide (((haltAt m lo).1.channels.getD j default).playing ≠ 0)) =
        (List.range' (lo + 1) n).filter
        (fun j => decide ((m.channels.getD j default).playing ≠ 0)) := by
      apply List.filter_congr
      intro a ha
      have hne : lo ≠ a := by
        have := (List.mem_range'_1).mp ha
        omega
      rw [List.getD_eq_getElem?_getD, List.getD_eq_getElem?_getD, haltAt_get_ne m lo a hne]
    rw [hcong]
    by_cases hp : (m.channels.getD lo default).playing ≠ 0
    · have hd : decide ((m.channels.getD lo default).playing ≠ 0) = true := by simpa using hp
      rw [if_pos hp, List.filter_cons, hd, if_pos rfl]
      rfl
    · have hd : decide ((m.channels.getD lo default).playing ≠ 0) = false := by simpa using hp
      rw [if_neg hp, List.filter_cons, hd, if_neg (by simp)]
      rfl

/-- Counterexample to C8 as stated ("for every integer N ... the bank holds
exactly N channels"): `allocate_channels(-1)` on a 2-channel bank is a
no-op query, the bank still holds 2 channels (not -1) and the call returns
2. -/
theorem claim_C8_counterexample :
    ((Mix_AllocateChannels ⟨[baseChannel, baseChannel], 0⟩ (-1) baseChannel).1.channels.length
        : Int) ≠ -1 ∧
    (Mix_AllocateChannels ⟨[baseChannel, baseChannel], 0⟩ (-1) baseChannel).2.1 = 2 := by
  refine ⟨by decide, by decide⟩

/-- C8 (amended): for every N ≥ 0 and any prior state, after
`allocate_channels(N)` the bank holds exactly N channels; channels beyond
the previous count are the garbage slot with the default fields written
(no chunk, not playing, volume max, no fade state, tag -1, no expiration,
unpaused, no effects); surviving channels are untouched; the removed range
is halted before the resize (the completion events of exactly the active
removed channels fire, in ascending order); the call returns N.  For
N < 0 the call is a no-op query returning the current count. -/
theorem claim_C8 (m : Mixer) (N : Int) (g : Channel) :
    (0 ≤ N →
      (Mix_AllocateChannels m N g).1.channels.length = N.toNat ∧
      (Mix_AllocateChannels m N g).2.1 = N ∧
      (∀ i : Nat, m.channels.length ≤ i → i < N.toNat →
        (Mix_AllocateChannels m N g).1.channels[i]? = some (initChannelFields g)) ∧
      (∀ i : Nat, i < m.channels.length → i < N.toNat →
        (Mix_AllocateChannels m N g).1.channels[i]? = m.channels[i]?) ∧
      (Mix_AllocateChannels m N g).2.2 =
        (if N < (m.channels.length : Int) then
          (List.range' N.toNat (m.channels.length - N.toNat)).filter
            (fun j => decide ((m.channels.getD j default).playing ≠ 0))
         else [])) ∧
    (N < 0 → Mix_AllocateChannels m N g = (m, (m.channels.length : Int), [])) := by
  constructor
  · intro hN
    by_cases heq : N = (m.channels.length : Int)
    · have hc : N < 0 ∨ N = (m.channels.length : Int) := Or.inr heq
      simp only [Mix_AllocateChannels, if_pos hc]
      refine ⟨by omega, by omega, ?_, ?_, ?_⟩
      · intro i h1 h2
        omega
      · intro i _ _
        trivial
      · rw [if_neg (by omega)]
    · have hc : ¬ (N < 0 ∨ N = (m.channels.length : Int)) := by omega
      simp only [Mix_AllocateChannels, if_neg hc]
      by_cases hlt : N < (m.channels.length : Int)
      · -- shrink: halt the removed range, then take
        have hsh : ¬ m.channels.length ≤ N.toNat := by omega
        simp only [if_pos hlt, if_neg hsh]
        have hlen := haltAll_length (List.range' N.toNat (m.channels.length - N.toNat)) m
        refine ⟨?_, by omega, ?_, ?_, ?_⟩
        · simp [hlen]
          omega
        · intro i h1 h2
          omega
        · intro i h1 h2
          rw [List.getElem?_take, if_pos h2]
          exact haltAll_get_notmem _ m i (by
            intro hmem
            have := (List.mem_range'_1).mp hmem
            omega)
        · exact haltAll_range'_events _ _ m
      · -- grow: no halts, extend with initialised slots
        have hgr : m.channels.length ≤ N.toNat := by omega
        simp only [if_neg hlt, if_pos hgr]
        refine ⟨?_, by omega, ?_, ?_, ?_⟩
        · simp only [List.length_append, List.length_map, List.length_replicate]
          omega
        · intro i h1 h2
          rw [List.getElem?_append, if_neg (by omega)]
          rw [List.getElem?_map, List.getElem?_replicate_of_lt (by omega)]
          rfl
        · intro i h1 h2
          rw [List.getElem?_append, if_pos h1]
        · trivial
  · intro hN
    simp only [Mix_AllocateChannels, if_pos (Or.inl hN)]

theorem claim_C8_witness :
    ((0 : Int) ≤ 1 ∧ (0 : Int) ≤ 3) ∧
    (Mix_AllocateChannels ⟨[baseChannel, { baseChannel with playing := 4 }, baseChannel], 0⟩
        1 baseChannel).1.channels.length = 1 ∧
    (Mix_AllocateChannels ⟨[baseChannel, { baseChannel with playing := 4 }, baseChannel], 0⟩
        1 baseChannel).2.2 = [1] ∧
    (Mix_AllocateChannels ⟨[{ baseChannel with playing := 4 }], 0⟩ 3
        { baseChannel with playing := 9, tag := 5 }).1.channels[2]? =
      some (initChannelFields { baseChannel with playing := 9, tag := 5 }) := by
  have hs := (claim_C8 ⟨[baseChannel, { baseChannel with playing := 4 }, baseChannel], 0⟩
    1 baseChannel).1 (by decide)
  have hg := (claim_C8 ⟨[{ baseChannel with playing := 4 }], 0⟩ 3
    { baseChannel with playing := 9, tag := 5 }).1 (by decide)
  refine ⟨⟨by decide, by decide⟩, hs.1, ?_, hg.2.2.1 2 (by decide) (by decide)⟩
  rw [hs.2.2.2.2]
  decide

/-! ## Sample-loop and loop-wrap analysis -/

theorem sampleLoop_stop (len : Nat) (lp p : Int) (s i e : Nat)
    (h : ¬ (0 < p ∧ i < len)) : ∀ fuel, sampleLoop fuel len lp p s i e = (p, s, i, e) := by
  intro fuel
  cases fuel with
  | zero => simp [sampleLoop]
  | succ f => simp [sampleLoop, h]

theorem sampleLoop_eq (fuel len : Nat) (lp p : Int) (s i e : Nat) (hf : 0 < fuel) :
    sampleLoop fuel len lp p s i e =
      if 0 < p ∧ i < len then
        (p - ((min p.toNat (len - i) : Nat) : Int), s + min p.toNat (len - i),
         i + min p.toNat (len - i),
         if p - ((min p.toNat (len - i) : Nat) : Int) = 0 ∧ lp = 0 then e + 1 else e)
      else (p, s, i, e) := by
  cases fuel with
  | zero => omega
  | succ f =>
    by_cases h : 0 < p ∧ i < len
    · rw [if_pos h]
      have hstop : ¬ (0 < p - ((min p.toNat (len - i) : Nat) : Int) ∧
          i + min p.toNat (len - i) < len) := by omega
      simp only [sampleLoop, if_pos h]
      rw [sampleLoop_stop len lp _ _ _ _ hstop f]
    · simp only [sampleLoop, if_neg h]

theorem loopWrap_neg (alen len : Nat) : ∀ (fuel : Nat) (lp : Int) (s : Nat) (p : Int) (i : Nat),
    lp < 0 → (loopWrap fuel alen lp s p len i).1 = lp := by
  intro fuel
  induction fuel with
  | zero => intro lp s p i _; simp [loopWrap]
  | succ f ih =>
    intro lp s p i hneg
    by_cases hg : lp ≠ 0 ∧ i < len
    · simp only [loopWrap, if_pos hg]
      rw [if_neg (by omega : ¬ (0 : Int) < lp)]
      exact ih lp _ _ _ hneg
    · simp only [loopWrap, if_neg hg]

theorem loopWrap_spec (alen len : Nat) (halen : 0 < alen) :
    ∀ (fuel : Nat) (lp p : Int) (s i : Nat),
      0 ≤ lp → 0 ≤ p → p.toNat ≤ alen → i ≤ len → len - i ≤ fuel →
      (lp ≠ 0 → i < len → p = 0) →
      0 ≤ (loopWrap fuel alen lp s p len i).1 ∧
      0 ≤ (loopWrap fuel alen lp s p len i).2.2.1 ∧
      ((loopWrap fuel alen lp s p len i).2.2.1).toNat ≤ alen ∧
      i ≤ (loopWrap fuel alen lp s p len i).2.2.2 ∧
      (loopWrap fuel alen lp s p len i).2.2.2 ≤ len ∧
      ((loopWrap fuel alen lp s p len i).1 = 0 ∨ (loopWrap fuel alen lp s p len i).2.2.2 = len) ∧
      ((loopWrap fuel alen lp s p len i).2.2.1).toNat +
        ((loopWrap fuel alen lp s p len i).1).toNat * alen +
        ((loopWrap fuel alen lp s p len i).2.2.2 - i) = p.toNat + lp.toNat * alen ∧
      ((loopWrap fuel alen lp s p len i).2.2.2 < len →
        (loopWrap fuel alen lp s p len i).2.2.1 = 0 ∨
        ((loopWrap fuel alen lp s p len i).2.2.1 = p ∧
         (loopWrap fuel alen lp s p len i).2.2.2 = i)) := by
  intro fuel
  induction fuel with
  | zero =>
    intro lp p s i hlp hp hpa hil hfuel hentry
    simp only [loopWrap]
    exact ⟨hlp, hp, hpa, le_refl i, hil, Or.inr (by omega), by omega,
      fun hlt => absurd hlt (by omega)⟩
  | succ f ih =>
    intro lp p s i hlp hp hpa hil hfuel hentry
    by_cases hg : lp ≠ 0 ∧ i < len
    · have hp0 : p = 0 := hentry hg.1 hg.2
      have hlp0 : (0 : Int) < lp := by
        rcases hg with ⟨h1, _⟩
        omega
      simp only [loopWrap, if_pos hg]
      rw [if_pos hlp0]
      have hmin1 : 1 ≤ min (len - i) alen := by
        rcases hg with ⟨_, h2⟩
        omega
      have H := ih (lp - 1) ((alen : Int) - ((min (len - i) alen : Nat) : Int))
        (min (len - i) alen) (i + min (len - i) alen)
        (by omega) (by omega) (by omega) (by omega) (by omega)
        (by
          intro h1 h2
          omega)
      obtain ⟨Hlp, Hp, HpL, Hii, Hil, Hor, Hcons, Hlast⟩ := H
      have hlink : lp.toNat * alen = (lp - 1).toNat * alen + alen := by
        have h1 : lp.toNat = (lp - 1).toNat + 1 := by omega
        rw [h1, Nat.add_mul, one_mul]
      refine ⟨Hlp, Hp, HpL, by omega, Hil, Hor, by omega, ?_⟩
      intro hlt
      rcases Hlast hlt with hz | ⟨hpp, hii⟩
      · exact Or.inl hz
      · left
        omega
    · simp only [loopWrap, if_neg hg]
      refine ⟨hlp, hp, hpa, le_refl i, hil, by omega, by omega, ?_⟩
      intro hlt
      right
      exact ⟨by trivial, by trivial⟩

/-- Bytes a channel still owes the output before going inactive
(for a non-negative loop counter): the remaining pass plus one full chunk
per outstanding repeat. -/
def chanM (L : Nat) (ch : Channel) : Nat := ch.playing.toNat + ch.looping.toNat * L

theorem mixPhase_pos_eq (len : Nat) (ch : Channel) (c : Mix_Chunk) (hpp : 0 < ch.playing)
    (hc : ch.chunk = some c) :
    mixPhase len ch =
      (match sampleLoop (len + 1) len ch.looping ch.playing ch.samplesPos 0 0 with
       | (p1, s1, i1, e1) =>
         match loopWrap len c.alen ch.looping s1 p1 len i1 with
         | (l2, s2, p2, i2) =>
           if p2 = 0 ∧ l2 ≠ 0 then
             ⟨{ ch with looping := if 0 < l2 then l2 - 1 else l2, samplesPos := 0,
                        playing := (c.alen : Int) }, e1, i2⟩
           else ⟨{ ch with looping := l2, samplesPos := s2, playing := p2 }, e1, i2⟩) := by
  unfold mixPhase
  rw [if_pos hpp, hc]

theorem mixPhase_spec (c : Mix_Chunk) (L len : Nat) (ch : Channel) (hL : c.alen = L)
    (hL0 : 0 < L) (hc : ch.chunk = some c) (hp0 : 0 ≤ ch.playing)
    (hpL : ch.playing ≤ (L : Int)) (hinv : ¬(ch.playing = 0 ∧ ch.looping ≠ 0))
    (hlp : 0 ≤ ch.looping) :
    (mixPhase len ch).ch.chunk = some c ∧
    0 ≤ (mixPhase len ch).ch.playing ∧
    (mixPhase len ch).ch.playing ≤ (L : Int) ∧
    ¬((mixPhase len ch).ch.playing = 0 ∧ (mixPhase len ch).ch.looping ≠ 0) ∧
    0 ≤ (mixPhase len ch).ch.looping ∧
    (mixPhase len ch).bytes + chanM L (mixPhase len ch).ch = chanM L ch ∧
    (mixPhase len ch).bytes = min len (chanM L ch) := by
  subst hL
  by_cases hpp : 0 < ch.playing
  · rw [mixPhase_pos_eq len ch c hpp hc]
    rcases hs : sampleLoop (len + 1) len ch.looping ch.playing ch.samplesPos 0 0 with
      ⟨p1, s1, i1, e1⟩
    have hseq := sampleLoop_eq (len + 1) len ch.looping ch.playing ch.samplesPos 0 0 (by omega)
    rw [hs] at hseq
    by_cases hlen : len = 0
    · subst hlen
      rw [if_neg (by omega : ¬ (0 < ch.playing ∧ (0 : Nat) < 0))] at hseq
      simp only [Prod.mk.injEq] at hseq
      obtain ⟨hp1, hs1, hi1, he1⟩ := hseq
      subst hp1 hs1 hi1 he1
      dsimp only
      rw [show loopWrap 0 c.alen ch.looping ch.samplesPos ch.playing 0 0 =
        (ch.looping, ch.samplesPos, ch.playing, 0) from rfl]
      dsimp only
      rw [if_neg (by omega : ¬ (ch.playing = 0 ∧ ch.looping ≠ 0))]
      dsimp only
      refine ⟨hc, hp0, hpL, hinv, hlp, ?_, ?_⟩
      · simp [chanM]
      · simp [chanM]
    · rw [if_pos ⟨hpp, by omega⟩] at hseq
      simp only [Prod.mk.injEq] at hseq
      obtain ⟨hp1, hs1, hi1, he1⟩ := hseq
      dsimp only
      have W := loopWrap_spec c.alen len (by omega) len ch.looping p1 s1 i1
        hlp (by omega) (by omega) (by omega) (by omega) (by omega)
      rcases hw : loopWrap len c.alen ch.looping s1 p1 len i1 with ⟨l2, s2, p2, i2⟩
      rw [hw] at W
      dsimp only at W
      obtain ⟨Wlp, Wp, WpL, Wii, Wil, Wor, Wcons, Wlast⟩ := W
      dsimp only
      by_cases hfix : p2 = 0 ∧ l2 ≠ 0
      · rw [if_pos hfix]
        have hl2pos : (0 : Int) < l2 := by
          rcases hfix with ⟨_, h2⟩
          omega
        rw [if_pos hl2pos]
        dsimp only
        have hlink : l2.toNat * c.alen = (l2 - 1).toNat * c.alen + c.alen := by
          have h1 : l2.toNat = (l2 - 1).toNat + 1 := by omega
          rw [h1, Nat.add_mul, one_mul]
        have hi2len : i2 = len := by
          rcases Wor with h | h
          · rcases hfix with ⟨_, h2⟩
            omega
          · exact h
        refine ⟨hc, by omega, by omega, by omega, by omega, ?_, ?_⟩
        · simp only [chanM]
          omega
        · simp only [chanM]
          omega
      · rw [if_neg hfix]
        dsimp only
        refine ⟨hc, Wp, by omega, hfix, Wlp, ?_, ?_⟩
        · simp only [chanM]
          omega
        · simp only [chanM]
          rcases Wor with hl20 | hi2len
          · by_cases hi2 : i2 = len
            · omega
            · rw [hl20] at Wcons
              simp only [Int.toNat_zero, Nat.zero_mul, zero_mul] at Wcons
              rcases Wlast (by omega) with hz | ⟨hpe, hie⟩
              · omega
              · omega
          · omega
  · have hpz : ch.playing = 0 := by omega
    have hlz : ch.looping = 0 := by
      by_contra h
      exact hinv ⟨hpz, h⟩
    rw [mixPhase_nonpos len ch hpp]
    exact ⟨hc, hp0, hpL, hinv, hlp, by simp [chanM, hpz, hlz], by simp [chanM, hpz, hlz]⟩

/-! ## Channel invariants across mixing callbacks -/

/-- The state of a channel that `Mix_PlayChannelTimed` can produce and the
mixing callback maintains, when no expiration, pause or fade is involved. -/
def chanWF (c : Mix_Chunk) (ch : Channel) : Prop :=
  ch.chunk = some c ∧ ch.paused = 0 ∧ ch.expire = 0 ∧ ch.fading = Mix_Fading.noFading ∧
  0 ≤ ch.playing ∧ ch.playing ≤ (c.alen : Int) ∧ ¬(ch.playing = 0 ∧ ch.looping ≠ 0)

theorem channelActive_false_iff (ch : Channel) :
    channelActive ch = false ↔ (ch.playing ≤ 0 ∧ ch.looping = 0) := by
  simp only [channelActive, Bool.or_eq_false_iff, decide_eq_false_iff_not]
  omega

theorem channelActive_true_of_loop (ch : Channel) (h : ch.looping ≠ 0) :
    channelActive ch = true := by
  simp only [channelActive, Bool.or_eq_true, decide_eq_true_eq]
  right
  exact h

theorem chanM_eq_zero_iff (L : Nat) (hL0 : 0 < L) (ch : Channel) (hlp : 0 ≤ ch.looping) :
    chanM L ch = 0 ↔ (ch.playing ≤ 0 ∧ ch.looping = 0) := by
  simp only [chanM]
  constructor
  · intro h
    have h1 : ch.playing.toNat = 0 ∧ ch.looping.toNat * L = 0 := by omega
    rcases Nat.mul_eq_zero.mp h1.2 with h2 | h2
    · constructor
      · omega
      · omega
    · omega
  · intro h
    have h1 : ch.playing.toNat = 0 := by omega
    have h2 : ch.looping.toNat = 0 := by omega
    rw [h1, h2]
    simp

theorem mixTick1_measure (c : Mix_Chunk) (L t len : Nat) (ch : Channel) (hL : c.alen = L)
    (hL0 : 0 < L) (hwf : chanWF c ch) (hlp : 0 ≤ ch.looping) :
    chanWF c (mixTick1 t len ch).ch ∧ 0 ≤ (mixTick1 t len ch).ch.looping ∧
    (mixTick1 t len ch).bytes + chanM L (mixTick1 t len ch).ch = chanM L ch ∧
    (mixTick1 t len ch).bytes = min len (chanM L ch) := by
  obtain ⟨hc, hpa, hex, hfa, hp0, hpL, hinv⟩ := hwf
  rw [mixTick1_eq t len ch hpa, tickPhase1_inert t ch hex hfa]
  dsimp only
  have K := mixPhase_keeps len ch
  have S := mixPhase_spec c L len ch hL hL0 hc hp0 (by omega) hinv hlp
  refine ⟨⟨S.1, ?_, ?_, ?_, S.2.1, by omega, S.2.2.2.1⟩, S.2.2.2.2.1, S.2.2.2.2.2.1,
    S.2.2.2.2.2.2⟩
  · rw [K.2.1]
    exact hpa
  · rw [K.2.2.2.1]
    exact hex
  · rw [K.2.2.2.2.1]
    exact hfa

theorem mixRun_measure (c : Mix_Chunk) (L t : Nat) (hL : c.alen = L) (hL0 : 0 < L) :
    ∀ (lens : List Nat) (ch : Channel), chanWF c ch → 0 ≤ ch.looping →
      chanWF c (mixRun t ch lens).1 ∧ 0 ≤ (mixRun t ch lens).1.looping ∧
      (mixRun t ch lens).2.2 + chanM L (mixRun t ch lens).1 = chanM L ch ∧
      (mixRun t ch lens).2.2 = min lens.sum (chanM L ch) := by
  intro lens
  induction lens with
  | nil =>
    intro ch hwf hlp
    simp only [mixRun, List.sum_nil]
    exact ⟨hwf, hlp, by omega, by omega⟩
  | cons len rest ih =>
    intro ch hwf hlp
    simp only [mixRun, List.sum_cons]
    have T := mixTick1_measure c L t len ch hL hL0 hwf hlp
    rcases ho : mixTick1 t len ch with ⟨ch1, e1, b1⟩
    rw [ho] at T
    dsimp only at T ⊢
    have R := ih ch1 T.1 T.2.1
    rcases hr : mixRun t ch1 rest with ⟨ch2, e2, b2⟩
    rw [hr] at R
    dsimp only at R ⊢
    exact ⟨R.1, R.2.1, by omega, by omega⟩

theorem mixPhase_neg_loop (len : Nat) (ch : Channel) (hneg : ch.looping < 0) :
    (mixPhase len ch).ch.looping = ch.looping := by
  by_cases hpp : 0 < ch.playing
  · cases hc : ch.chunk with
    | none =>
      unfold mixPhase
      rw [if_pos hpp, hc]
    | some c =>
      rw [mixPhase_pos_eq len ch c hpp hc]
      rcases hs : sampleLoop (len + 1) len ch.looping ch.playing ch.samplesPos 0 0 with
        ⟨p1, s1, i1, e1⟩
      dsimp only
      have hw2 := loopWrap_neg c.alen len len ch.looping s1 p1 i1 hneg
      rcases hw : loopWrap len c.alen ch.looping s1 p1 len i1 with ⟨l2, s2, p2, i2⟩
      rw [hw] at hw2
      dsimp only at hw2
      dsimp only
      by_cases hfix : p2 = 0 ∧ l2 ≠ 0
      · rw [if_pos hfix]
        dsimp only
        rw [if_neg (by omega : ¬ (0 : Int) < l2)]
        exact hw2
      · rw [if_neg hfix]
        dsimp only
        exact hw2
  · rw [mixPhase_nonpos len ch hpp]

theorem mixTick1_neg (t len : Nat) (ch : Channel) (hpa : ch.paused = 0) (hex : ch.expire = 0)
    (hfa : ch.fading = Mix_Fading.noFading) (hneg : ch.looping < 0) :
    (mixTick1 t len ch).ch.looping = ch.looping ∧
    (mixTick1 t len ch).ch.paused = 0 ∧
    (mixTick1 t len ch).ch.expire = 0 ∧
    (mixTick1 t len ch).ch.fading = Mix_Fading.noFading := by
  rw [mixTick1_eq t len ch hpa, tickPhase1_inert t ch hex hfa]
  dsimp only
  have K := mixPhase_keeps len ch
  exact ⟨mixPhase_neg_loop len ch hneg, by rw [K.2.1]; exact hpa, by rw [K.2.2.2.1]; exact hex,
    by rw [K.2.2.2.2.1]; exact hfa⟩

theorem mixRun_neg : ∀ (lens : List Nat) (t : Nat) (ch : Channel), ch.paused = 0 →
    ch.expire = 0 → ch.fading = Mix_Fading.noFading → ch.looping < 0 →
    (mixRun t ch lens).1.looping = ch.looping := by
  intro lens
  induction lens with
  | nil => intro t ch _ _ _ _; rfl
  | cons len rest ih =>
    intro t ch hpa hex hfa hneg
    simp only [mixRun]
    have T := mixTick1_neg t len ch hpa hex hfa hneg
    rcases ho : mixTick1 t len ch with ⟨ch1, e1, b1⟩
    rw [ho] at T
    dsimp only at T ⊢
    rcases hr : mixRun t ch1 rest with ⟨ch2, e2, b2⟩
    have R := ih t ch1 T.2.1 T.2.2.1 T.2.2.2 (by omega)
    rw [hr] at R
    dsimp only at R
    rw [R, T.1]

/-! ## C2: total bytes before inactivity -/

/-- C2: a channel freshly started with `play(ch, chunk, K, 0)` on a chunk of
truncated length L > 0 (no expiration, pause or fade): for finite K ≥ 1,
across any sequence of mixing callbacks it never mixes more than
`L*(K+1)` bytes, it is inactive exactly when the total mixed is
`L*(K+1)`, and once the callbacks' total buffer length reaches `L*(K+1)`
it is inactive; with the infinite sentinel K = -1 it never becomes
inactive. -/
theorem claim_C2 (c : Mix_Chunk) (L : Nat) (K : Int) (ch : Channel) (t : Nat)
    (hc : ch.chunk = some c) (hL : c.alen = L) (hL0 : 0 < L)
    (hp : ch.playing = (L : Int)) (hk : ch.looping = K)
    (hpa : ch.paused = 0) (hex : ch.expire = 0) (hfa : ch.fading = Mix_Fading.noFading) :
    (1 ≤ K →
      ∀ lens : List Nat,
        (mixRun t ch lens).2.2 ≤ L * (K.toNat + 1) ∧
        (channelActive (mixRun t ch lens).1 = false ↔
          (mixRun t ch lens).2.2 = L * (K.toNat + 1)) ∧
        (L * (K.toNat + 1) ≤ lens.sum → channelActive (mixRun t ch lens).1 = false)) ∧
    (K = -1 → ∀ lens : List Nat, channelActive (mixRun t ch lens).1 = true) := by
  constructor
  · intro hK lens
    have hwf : chanWF c ch := ⟨hc, hpa, hex, hfa, by omega, by omega, by omega⟩
    have R := mixRun_measure c L t hL hL0 lens ch hwf (by omega)
    have hM : chanM L ch = L * (K.toNat + 1) := by
      simp only [chanM, hp, hk, Int.toNat_natCast]
      ring
    obtain ⟨⟨_, _, _, _, hp0r, _, _⟩, hlpr, hcons, hmin⟩ := R
    have hz := chanM_eq_zero_iff L hL0 (mixRun t ch lens).1 hlpr
    have ha := channelActive_false_iff (mixRun t ch lens).1
    refine ⟨by omega, ?_, ?_⟩
    · rw [ha, ← hz]
      omega
    · intro hsum
      rw [ha, ← hz]
      omega
  · intro hK lens
    apply channelActive_true_of_loop
    rw [mixRun_neg lens t ch hpa hex hfa (by omega), hk, hK]
    omega

/-- The channel of the C2 scenario with one repeat (K = 1). -/
def chC2a : Channel :=
  { baseChannel with chunk := some ⟨2, 2, 128, true⟩, playing := 2, looping := 1 }

/-- The channel of the C2 scenario with the infinite sentinel (K = -1). -/
def chC2b : Channel :=
  { baseChannel with chunk := some ⟨2, 2, 128, true⟩, playing := 2, looping := -1 }

theorem claim_C2_witness :
    ((0 : Nat) < 2 ∧ (1 : Int) ≤ 1) ∧
    ((mixRun 0 chC2a [1, 2, 1]).2.2 ≤ 2 * ((1 : Int).toNat + 1) ∧
      (channelActive (mixRun 0 chC2a [1, 2, 1]).1 = false ↔
        (mixRun 0 chC2a [1, 2, 1]).2.2 = 2 * ((1 : Int).toNat + 1))) ∧
    channelActive (mixRun 0 chC2b [5, 5]).1 = true := by
  have h := claim_C2 ⟨2, 2, 128, true⟩ 2 1 chC2a 0 rfl rfl (by decide) (by decide) rfl
    rfl rfl rfl
  have h2 := claim_C2 ⟨2, 2, 128, true⟩ 2 (-1) chC2b 0 rfl rfl (by decide) (by decide) rfl
    rfl rfl rfl
  exact ⟨⟨by decide, by decide⟩, ⟨(h.1 (by decide) [1, 2, 1]).1, (h.1 (by decide) [1, 2, 1]).2.1⟩,
    h2.2 rfl [5, 5]⟩

/-! ## One-shot (no-loop) tick lemmas for C1 -/

theorem loopWrap_zero (fuel alen : Nat) (s : Nat) (p : Int) (len i : Nat) :
    loopWrap fuel alen 0 s p len i = (0, s, p, i) := by
  cases fuel with
  | zero => rfl
  | succ f => simp [loopWrap]

theorem mixTick1_noloop_partial (t len : Nat) (ch : Channel) (c : Mix_Chunk)
    (hc : ch.chunk = some c) (hpa : ch.paused = 0) (hex : ch.expire = 0)
    (hfa : ch.fading = Mix_Fading.noFading) (hl0 : ch.looping = 0)
    (hlen : (len : Int) < ch.playing) :
    (mixTick1 t len ch).ch.chunk = some c ∧
    (mixTick1 t len ch).ch.paused = 0 ∧
    (mixTick1 t len ch).ch.expire = 0 ∧
    (mixTick1 t len ch).ch.fading = Mix_Fading.noFading ∧
    (mixTick1 t len ch).ch.looping = 0 ∧
    (mixTick1 t len ch).ch.playing = ch.playing - (len : Int) ∧
    (mixTick1 t len ch).events = 0 := by
  have hpp : 0 < ch.playing := by omega
  rw [mixTick1_eq t len ch hpa, tickPhase1_inert t ch hex hfa]
  dsimp only
  have K := mixPhase_keeps len ch
  refine ⟨by rw [K.1]; exact hc, by rw [K.2.1]; exact hpa, by rw [K.2.2.2.1]; exact hex,
    by rw [K.2.2.2.2.1]; exact hfa, ?_⟩
  rw [mixPhase_pos_eq len ch c hpp hc]
  by_cases hlen0 : len = 0
  · subst hlen0
    rw [sampleLoop_stop 0 ch.looping ch.playing ch.samplesPos 0 0 (by omega) 1]
    dsimp only
    rw [hl0, loopWrap_zero 0 c.alen ch.samplesPos ch.playing 0 0]
    dsimp only
    rw [if_neg (by omega : ¬ (ch.playing = 0 ∧ (0 : Int) ≠ 0))]
    dsimp only
    refine ⟨rfl, by omega, rfl⟩
  · rw [sampleLoop_eq (len + 1) len ch.looping ch.playing ch.samplesPos 0 0 (by omega),
      if_pos ⟨hpp, by omega⟩]
    dsimp only
    have hmin : min ch.playing.toNat (len - 0) = len := by omega
    rw [hmin, hl0, loopWrap_zero len c.alen (ch.samplesPos + len)
      (ch.playing - ((len : Nat) : Int)) len (0 + len)]
    dsimp only
    rw [if_neg (by omega : ¬ (ch.playing - ((len : Nat) : Int) = 0 ∧ (0 : Int) ≠ 0))]
    dsimp only
    refine ⟨rfl, rfl, ?_⟩
    rw [if_neg (by omega : ¬ (ch.playing - ((len : Nat) : Int) = 0 ∧ (0 : Int) = 0))]

theorem mixTick1_noloop_final (t len : Nat) (ch : Channel) (c : Mix_Chunk)
    (hc : ch.chunk = some c) (hpa : ch.paused = 0) (hex : ch.expire = 0)
    (hfa : ch.fading = Mix_Fading.noFading) (hl0 : ch.looping = 0)
    (hpp : 0 < ch.playing) (hlen : ch.playing = (len : Int)) :
    channelActive (mixTick1 t len ch).ch = false ∧
    (mixTick1 t len ch).events = 1 := by
  rw [mixTick1_eq t len ch hpa, tickPhase1_inert t ch hex hfa]
  dsimp only
  rw [mixPhase_pos_eq len ch c hpp hc]
  rw [sampleLoop_eq (len + 1) len ch.looping ch.playing ch.samplesPos 0 0 (by omega),
    if_pos ⟨hpp, by omega⟩]
  dsimp only
  have hmin : min ch.playing.toNat (len - 0) = len := by omega
  rw [hmin, hl0, loopWrap_zero len c.alen (ch.samplesPos + len)
    (ch.playing - ((len : Nat) : Int)) len (0 + len)]
  dsimp only
  rw [if_neg (by omega : ¬ (ch.playing - ((len : Nat) : Int) = 0 ∧ (0 : Int) ≠ 0))]
  dsimp only
  constructor
  · rw [channelActive_false_iff]
    dsimp only
    omega
  · rw [if_pos (by omega : ch.playing - ((len : Nat) : Int) = 0 ∧ (0 : Int) = 0)]

theorem mixRun_noloop_partial (t : Nat) : ∀ (ls : List Nat) (ch : Channel) (c : Mix_Chunk),
    ch.chunk = some c → ch.paused = 0 → ch.expire = 0 → ch.fading = Mix_Fading.noFading →
    ch.looping = 0 → ((ls.sum : Int) < ch.playing) →
    (mixRun t ch ls).1.chunk = some c ∧
    (mixRun t ch ls).1.paused = 0 ∧
    (mixRun t ch ls).1.expire = 0 ∧
    (mixRun t ch ls).1.fading = Mix_Fading.noFading ∧
    (mixRun t ch ls).1.looping = 0 ∧
    (mixRun t ch ls).1.playing = ch.playing - (ls.sum : Int) ∧
    (mixRun t ch ls).2.1 = 0 := by
  intro ls
  induction ls with
  | nil =>
    intro ch c hc hpa hex hfa hl0 hsum
    simp only [mixRun, List.sum_nil]
    exact ⟨hc, hpa, hex, hfa, hl0, by omega, trivial⟩
  | cons len rest ih =>
    intro ch c hc hpa hex hfa hl0 hsum
    rw [List.sum_cons] at hsum
    have T := mixTick1_noloop_partial t len ch c hc hpa hex hfa hl0 (by omega)
    simp only [mixRun, List.sum_cons]
    rcases ho : mixTick1 t len ch with ⟨ch1, e1, b1⟩
    rw [ho] at T
    dsimp only at T ⊢
    have R := ih ch1 c T.1 T.2.1 T.2.2.1 T.2.2.2.1 T.2.2.2.2.1 (by
      rw [T.2.2.2.2.2.1]
      omega)
    rcases hr : mixRun t ch1 rest with ⟨ch2, e2, b2⟩
    rw [hr] at R
    dsimp only at R ⊢
    refine ⟨R.1, R.2.1, R.2.2.1, R.2.2.2.1, R.2.2.2.2.1, ?_, by omega⟩
    rw [R.2.2.2.2.2.1, T.2.2.2.2.2.1]
    push_cast
    ring

/-! ## Bank-level lemmas for mix_channels and mixBankRun -/

theorem mixChansGo_channels (t len : Nat) : ∀ (chs : List Channel) (k : Nat),
    (mixChansGo t len k chs).1 = chs.map (fun ch => (mixTick1 t len ch).ch) := by
  intro chs
  induction chs with
  | nil => intro k; rfl
  | cons ch rest ih =>
    intro k
    simp only [mixChansGo, List.map_cons]
    have ihk := ih (k + 1)
    rcases ho : mixChansGo t len (k + 1) rest with ⟨rest1, evs⟩
    rw [ho] at ihk
    dsimp only at ihk ⊢
    rw [ihk]

theorem mixChansGo_bound (t len : Nat) : ∀ (chs : List Channel) (k x : Nat),
    x ∈ (mixChansGo t len k chs).2 → k ≤ x := by
  intro chs
  induction chs with
  | nil => intro k x hx; simp [mixChansGo] at hx
  | cons ch rest ih =>
    intro k x hx
    simp only [mixChansGo] at hx
    rcases ho : mixChansGo t len (k + 1) rest with ⟨rest1, evs⟩
    rw [ho] at hx
    dsimp only at hx
    rcases List.mem_append.mp hx with h | h
    · have := List.eq_of_mem_replicate h
      omega
    · have := ih (k + 1) x (by rw [ho]; exact h)
      omega

theorem mixChansGo_count (t len : Nat) : ∀ (chs : List Channel) (k j : Nat),
    ((mixChansGo t len k chs).2).count (k + j) =
      (match chs[j]? with
       | some ch => (mixTick1 t len ch).events
       | none => 0) := by
  intro chs
  induction chs with
  | nil => intro k j; simp [mixChansGo]
  | cons ch rest ih =>
    intro k j
    simp only [mixChansGo]
    rcases ho : mixChansGo t len (k + 1) rest with ⟨rest1, evs⟩
    dsimp only
    rw [List.count_append]
    cases j with
    | zero =>
      have h1 : (List.replicate (mixTick1 t len ch).events k).count (k + 0) =
          (mixTick1 t len ch).events := by
        simp
      have h2 : evs.count (k + 0) = 0 := by
        rw [List.count_eq_zero]
        intro hmem
        have := mixChansGo_bound t len rest (k + 1) (k + 0) (by rw [ho]; exact hmem)
        omega
      rw [h1, h2]
      simp
    | succ j2 =>
      have h1 : (List.replicate (mixTick1 t len ch).events k).count (k + (j2 + 1)) = 0 := by
        rw [List.count_eq_zero]
        intro hmem
        have := List.eq_of_mem_replicate hmem
        omega
      have h2 := ih (k + 1) j2
      rw [ho] at h2
      dsimp only at h2
      rw [h1, show k + (j2 + 1) = (k + 1) + j2 from by omega, h2]
      simp

theorem mix_channels_channels (t len : Nat) (m : Mixer) :
    (mix_channels t len m).1.channels = m.channels.map (fun ch => (mixTick1 t len ch).ch) := by
  simp only [mix_channels]
  rcases ho : mixChansGo t len 0 m.channels with ⟨chs, evs⟩
  have h := mixChansGo_channels t len m.channels 0
  rw [ho] at h
  dsimp only at h ⊢
  exact h

theorem mix_channels_count (t len : Nat) (m : Mixer) (i : Nat) :
    ((mix_channels t len m).2).count i =
      (match m.channels[i]? with
       | some ch => (mixTick1 t len ch).events
       | none => 0) := by
  simp only [mix_channels]
  rcases ho : mixChansGo t len 0 m.channels with ⟨chs, evs⟩
  have h := mixChansGo_count t len m.channels 0 i
  rw [ho, show (0 + i) = i from by omega] at h
  dsimp only at h ⊢
  exact h

theorem mixRun_cons_fst (t len : Nat) (rest : List Nat) (ch : Channel) :
    (mixRun t ch (len :: rest)).1 = (mixRun t (mixTick1 t len ch).ch rest).1 := by
  simp only [mixRun]

theorem mixRun_cons_events (t len : Nat) (rest : List Nat) (ch : Channel) :
    (mixRun t ch (len :: rest)).2.1 =
      (mixTick1 t len ch).events + (mixRun t (mixTick1 t len ch).ch rest).2.1 := by
  simp only [mixRun]

theorem mixBankRun_channels (t : Nat) : ∀ (lens : List Nat) (m : Mixer),
    (mixBankRun t m lens).1.channels = m.channels.map (fun ch => (mixRun t ch lens).1) := by
  intro lens
  induction lens with
  | nil => intro m; simp [mixBankRun, mixRun]
  | cons len rest ih =>
    intro m
    simp only [mixBankRun]
    rcases hm : mix_channels t len m with ⟨m1, e1⟩
    rcases hb : mixBankRun t m1 rest with ⟨m2, e2⟩
    dsimp only
    have h1 := ih m1
    rw [hb] at h1
    dsimp only at h1
    have h2 : m1.channels = m.channels.map (fun ch => (mixTick1 t len ch).ch) := by
      have h3 := mix_channels_channels t len m
      rw [hm] at h3
      exact h3
    rw [h1, h2, List.map_map]
    apply List.map_congr_left
    intro ch0 _
    exact (mixRun_cons_fst t len rest ch0).symm

theorem mixBankRun_count (t : Nat) : ∀ (lens : List Nat) (m : Mixer) (i : Nat),
    ((mixBankRun t m lens).2).count i =
      (match m.channels[i]? with
       | some ch => (mixRun t ch lens).2.1
       | none => 0) := by
  intro lens
  induction lens with
  | nil => intro m i; cases h : m.channels[i]? <;> simp [mixBankRun, mixRun, h]
  | cons len rest ih =>
    intro m i
    simp only [mixBankRun]
    rcases hm : mix_channels t len m with ⟨m1, e1⟩
    rcases hb : mixBankRun t m1 rest with ⟨m2, e2⟩
    dsimp only
    rw [List.count_append]
    have hc1 : e1.count i =
        (match m.channels[i]? with
         | some ch => (mixTick1 t len ch).events
         | none => 0) := by
      have h := mix_channels_count t len m i
      rw [hm] at h
      exact h
    have hrest : e2.count i =
        (match m1.channels[i]? with
         | some ch => (mixRun t ch rest).2.1
         | none => 0) := by
      have h := ih m1 i
      rw [hb] at h
      exact h
    have hm1 : m1.channels = m.channels.map (fun ch => (mixTick1 t len ch).ch) := by
      have h3 := mix_channels_channels t len m
      rw [hm] at h3
      exact h3
    rw [hc1, hrest, hm1, List.getElem?_map]
    cases h : m.channels[i]? with
    | none => simp
    | some ch0 =>
      simp only [Option.map_some']
      rw [mixRun_cons_events t len rest ch0]

/-! ## C1: one-shot play mixes exactly once to completion -/

/-- The channel state `Mix_PlayChannelTimed(i, chunk, 0, 0)` installs
(loop count 0, no duration limit). -/
def playedChannel (ch0 : Channel) (c : Mix_Chunk) (t : Nat) : Channel :=
  { ch0 with samplesPos := 0, playing := (c.alen : Int), looping := 0, chunk := some c,
             paused := 0, fading := Mix_Fading.noFading, start_time := t, expire := 0 }

/-- C1: playing a chunk of truncated length L > 0 with loop count 0 on a
channel that is not playing fires no eager completion event; mixing
callbacks whose buffer lengths are positive and total exactly L fire the
completion callback for that channel exactly once, and only during the
final call (the one that consumes the last byte); afterwards `Mix_Playing`
reports 0 for that channel. -/
theorem claim_C1 (t : Nat) (spec : AudioSpec) (m : Mixer) (i : Nat) (ch0 : Channel)
    (c0 : Mix_Chunk) (L : Nat) (ls : List Nat) (llast : Nat)
    (hch : m.channels[i]? = some ch0) (hact : channelActive ch0 = false)
    (htr : chunkTruncLoop (frameWidth spec) c0.alen = L) (hL0 : 0 < L)
    (_hpos : ∀ x ∈ ls, 0 < x) (hlast : 0 < llast) (hsum : ls.sum + llast = L) :
    (Mix_PlayChannelTimed t spec m (i : Int) (some c0) 0 0).2.2.2 = [] ∧
    (Mix_PlayChannelTimed t spec m (i : Int) (some c0) 0 0).2.2.1 = (i : Int) ∧
    ((mixBankRun t (Mix_PlayChannelTimed t spec m (i : Int) (some c0) 0 0).1 ls).2).count i
      = 0 ∧
    ((mix_channels t llast
        (mixBankRun t (Mix_PlayChannelTimed t spec m (i : Int) (some c0) 0 0).1 ls).1).2).count i
      = 1 ∧
    (Mix_Playing
        (mix_channels t llast
          (mixBankRun t (Mix_PlayChannelTimed t spec m (i : Int) (some c0) 0 0).1 ls).1).1
        (i : Int)).1 = 0 := by
  have hilen : i < m.channels.length := (List.getElem?_eq_some.mp hch).1
  have hne : ((i : Nat) : Int) ≠ -1 := by omega
  have hge : (0 : Int) ≤ ((i : Nat) : Int) := by omega
  have hlt : ((i : Nat) : Int) < (m.channels.length : Int) := by
    exact_mod_cast Int.ofNat_lt.mpr hilen
  have htonat : (((i : Nat) : Int)).toNat = i := by omega
  have hgd : m.channels.getD i default = ch0 := by
    simp [List.getD_eq_getElem?_getD, hch]
  have hplay : Mix_PlayChannelTimed t spec m (i : Int) (some c0) 0 0 =
      ({ m with channels := m.channels.set i (playedChannel ch0 { c0 with alen := L } t) },
        some { c0 with alen := L }, (i : Int), []) := by
    simp only [Mix_PlayChannelTimed, checkchunkintegral, htr]
    rw [if_neg (show ¬ L = 0 by omega), if_neg hne, if_pos ⟨hge, hlt⟩]
    rw [htonat, hgd]
    simp [hact, playedChannel]
  rw [hplay]
  dsimp only
  set pc : Channel := playedChannel ch0 { c0 with alen := L } t with hpcdef
  set m1 : Mixer := { m with channels := m.channels.set i pc } with hm1def
  have hm1get : m1.channels[i]? = some pc := by
    rw [hm1def]
    simp [List.getElem?_set_self, hilen]
  have hpcchunk : pc.chunk = some { c0 with alen := L } := by rw [hpcdef]; rfl
  have hpcpa : pc.paused = 0 := by rw [hpcdef]; rfl
  have hpcex : pc.expire = 0 := by rw [hpcdef]; rfl
  have hpcfa : pc.fading = Mix_Fading.noFading := by rw [hpcdef]; rfl
  have hpclp : pc.looping = 0 := by rw [hpcdef]; rfl
  have hpcpl : pc.playing = (L : Int) := by rw [hpcdef]; rfl
  have R := mixRun_noloop_partial t ls pc { c0 with alen := L }
    hpcchunk hpcpa hpcex hpcfa hpclp (by rw [hpcpl]; omega)
  have hm2get : (mixBankRun t m1 ls).1.channels[i]? = some ((mixRun t pc ls).1) := by
    rw [mixBankRun_channels, List.getElem?_map, hm1get, Option.map_some']
  have hp2 : (mixRun t pc ls).1.playing = (llast : Int) := by
    rw [R.2.2.2.2.2.1, hpcpl]
    omega
  have F := mixTick1_noloop_final t llast (mixRun t pc ls).1 { c0 with alen := L }
    R.1 R.2.1 R.2.2.1 R.2.2.2.1 R.2.2.2.2.1 (by omega) hp2
  refine ⟨rfl, rfl, ?_, ?_, ?_⟩
  · rw [mixBankRun_count]
    rw [hm1get]
    exact R.2.2.2.2.2.2
  · rw [mix_channels_count, hm2get]
    exact F.2
  · have hlen2 : (mixBankRun t m1 ls).1.channels.length = m.channels.length := by
      rw [mixBankRun_channels, hm1def]
      simp
    have hm3ch := mix_channels_channels t llast (mixBankRun t m1 ls).1
    have hlen3 : (mix_channels t llast (mixBankRun t m1 ls).1).1.channels.length
        = m.channels.length := by
      rw [hm3ch]
      simp [hlen2]
    have hm3get : (mix_channels t llast (mixBankRun t m1 ls).1).1.channels[i]? =
        some ((mixTick1 t llast (mixRun t pc ls).1).ch) := by
      rw [hm3ch, List.getElem?_map, hm2get, Option.map_some']
    have hgd3 : (mix_channels t llast (mixBankRun t m1 ls).1).1.channels.getD i default =
        (mixTick1 t llast (mixRun t pc ls).1).ch := by
      simp [List.getD_eq_getElem?_getD, hm3get]
    have hlt3 : ((i : Nat) : Int) <
        ((mix_channels t llast (mixBankRun t m1 ls).1).1.channels.length : Int) := by
      rw [hlen3]
      exact hlt
    simp only [Mix_Playing, if_neg hne, if_pos hlt3, if_pos hge, htonat, hgd3]
    simp [F.1]

theorem claim_C1_witness :
    ((⟨[baseChannel], 0⟩ : Mixer).channels[0]? = some baseChannel ∧
      channelActive baseChannel = false ∧
      chunkTruncLoop (frameWidth ⟨8, 1⟩) ((⟨4, 3, 128, true⟩ : Mix_Chunk).alen) = 3 ∧
      (0 : Nat) < 3 ∧ (∀ x ∈ [1, 1], 0 < x) ∧ (0 : Nat) < 1 ∧ [1, 1].sum + 1 = 3) ∧
    ((mixBankRun 0 (Mix_PlayChannelTimed 0 ⟨8, 1⟩ ⟨[baseChannel], 0⟩ ((0 : Nat) : Int)
        (some ⟨4, 3, 128, true⟩) 0 0).1 [1, 1]).2).count 0 = 0 ∧
    ((mix_channels 0 1 (mixBankRun 0 (Mix_PlayChannelTimed 0 ⟨8, 1⟩ ⟨[baseChannel], 0⟩
        ((0 : Nat) : Int) (some ⟨4, 3, 128, true⟩) 0 0).1 [1, 1]).1).2).count 0 = 1 ∧
    (Mix_Playing (mix_channels 0 1 (mixBankRun 0 (Mix_PlayChannelTimed 0 ⟨8, 1⟩
        ⟨[baseChannel], 0⟩ ((0 : Nat) : Int) (some ⟨4, 3, 128, true⟩) 0 0).1 [1, 1]).1).1
        ((0 : Nat) : Int)).1 = 0 := by
  have h := claim_C1 0 ⟨8, 1⟩ ⟨[baseChannel], 0⟩ 0 baseChannel ⟨4, 3, 128, true⟩ 3 [1, 1] 1
    (by decide) (by decide) (by decide) (by decide) (by decide) (by decide) (by decide)
  exact ⟨⟨by decide, by decide, by decide, by decide, by decide, by decide, by decide⟩,
    h.2.2.1, h.2.2.2.1, h.2.2.2.2⟩

/-! ## C6: completion-callback coverage of active-to-inactive transitions -/

/-- A playing channel referencing the chunk that will be freed. -/
def chC6 : Channel := { baseChannel with chunk := some ⟨9, 4, 128, true⟩, playing := 4 }

/-- Counterexample to C6 as stated: destroying a chunk that a playing
channel references transitions that channel from active to not-playing,
but `Mix_FreeChunk` performs no completion-callback invocation at all —
its full action trace is stop, buffer free, struct free, with no
`doneCallback` event. -/
theorem claim_C6_counterexample :
    channelActive chC6 = true ∧
    channelActive ((Mix_FreeChunk ⟨[chC6], 0⟩ ⟨9, 4, 128, true⟩).1.channels.getD 0 default)
      = false ∧
    (Mix_FreeChunk ⟨[chC6], 0⟩ ⟨9, 4, 128, true⟩).2 =
      [FreeEvent.stopChannel 0, FreeEvent.freeBuf 9, FreeEvent.freeChunkStruct] := by
  refine ⟨by decide, by decide, by decide⟩

/-- C6 (amended): halt fires the completion callback for a channel with
nonzero `playing`; overwriting an active channel via play fires it
eagerly; the mixing tick fires it when the sample loop drains the final
bytes of a non-looping channel.  But chunk destruction stops referencing
channels without ever firing the callback, and a mixing tick never fires
the callback for a channel whose loop counter is nonzero — in particular
the loop-wrap path that exhausts the final repeat exactly at a chunk
boundary (loop counter 1 -> 0, playing -> 0 inside the wrap loop) ends the
channel silently. -/
theorem claim_C6 :
    (∀ ch : Channel, ch.playing ≠ 0 → (haltChannel1 ch).2 = 1) ∧
    (∀ (t : Nat) (spec : AudioSpec) (m : Mixer) (i : Nat) (ch : Channel) (c0 : Mix_Chunk)
        (loops ticks : Int),
        m.channels[i]? = some ch → channelActive ch = true →
        chunkTruncLoop (frameWidth spec) c0.alen ≠ 0 →
        (Mix_PlayChannelTimed t spec m (i : Int) (some c0) loops ticks).2.2.2 = [i]) ∧
    (∀ (m : Mixer) (c : Mix_Chunk) (j : Nat),
        FreeEvent.doneCallback j ∉ (Mix_FreeChunk m c).2) ∧
    (∀ (t len : Nat) (ch : Channel) (c : Mix_Chunk),
        ch.paused = 0 → ch.expire = 0 → ch.fading = Mix_Fading.noFading →
        ch.chunk = some c → ch.looping = 0 → 0 < ch.playing → ch.playing ≤ (len : Int) →
        (mixTick1 t len ch).events = 1) ∧
    (∀ (t len : Nat) (ch : Channel),
        ch.expire = 0 → ch.fading = Mix_Fading.noFading → ch.looping ≠ 0 →
        (mixTick1 t len ch).events = 0) := by
  refine ⟨?_, ?_, ?_, ?_, ?_⟩
  · intro ch hp
    rw [haltChannel1_events, if_pos hp]
  · intro t spec m i ch c0 loops ticks hch hact htr
    have hilen : i < m.channels.length := (List.getElem?_eq_some.mp hch).1
    have hne : ((i : Nat) : Int) ≠ -1 := by omega
    have hge : (0 : Int) ≤ ((i : Nat) : Int) := by omega
    have hlt : ((i : Nat) : Int) < (m.channels.length : Int) := by
      exact_mod_cast Int.ofNat_lt.mpr hilen
    have htonat : (((i : Nat) : Int)).toNat = i := by omega
    have hgd : m.channels.getD i default = ch := by
      simp [List.getD_eq_getElem?_getD, hch]
    simp only [Mix_PlayChannelTimed, checkchunkintegral]
    rw [if_neg htr, if_neg hne, if_pos ⟨hge, hlt⟩, htonat, hgd]
    simp [hact]
  · intro m c j hmem
    simp only [Mix_FreeChunk] at hmem
    rcases hf : freeStops c 0 m.channels with ⟨chs, evs⟩
    rw [hf] at hmem
    dsimp only at hmem
    rcases List.mem_append.mp hmem with h | h
    · rcases List.mem_append.mp h with h2 | h2
      · rcases freeStops_events_shape c m.channels 0 _ (by rw [hf]; exact h2) with ⟨i2, hi2⟩
        simp at hi2
      · by_cases ha : c.allocated <;> simp [ha] at h2
    · simp at h
  · intro t len ch c hpa hex hfa hc hl0 hpp hple
    rw [mixTick1_eq t len ch hpa, tickPhase1_inert t ch hex hfa]
    dsimp only
    rw [mixPhase_pos_eq len ch c hpp hc]
    rw [sampleLoop_eq (len + 1) len ch.looping ch.playing ch.samplesPos 0 0 (by omega),
      if_pos ⟨hpp, by omega⟩]
    dsimp only
    have hmin : min ch.playing.toNat (len - 0) = ch.playing.toNat := by omega
    rw [hmin, hl0]
    rw [loopWrap_zero len c.alen (ch.samplesPos + ch.playing.toNat)
      (ch.playing - ((ch.playing.toNat : Nat) : Int)) len (0 + ch.playing.toNat)]
    dsimp only
    rw [if_neg (by omega :
      ¬ (ch.playing - ((ch.playing.toNat : Nat) : Int) = 0 ∧ (0 : Int) ≠ 0))]
    dsimp only
    rw [if_pos ⟨by omega, rfl⟩]
  · intro t len ch hex hfa hlp
    by_cases hpa : ch.paused = 0
    · rw [mixTick1_eq t len ch hpa, tickPhase1_inert t ch hex hfa]
      dsimp only
      by_cases hpp : 0 < ch.playing
      · cases hc : ch.chunk with
        | none =>
          unfold mixPhase
          rw [if_pos hpp, hc]
          rfl
        | some c =>
          rw [mixPhase_pos_eq len ch c hpp hc]
          rcases hs : sampleLoop (len + 1) len ch.looping ch.playing ch.samplesPos 0 0 with
            ⟨p1, s1, i1, e1⟩
          have hseq := sampleLoop_eq (len + 1) len ch.looping ch.playing ch.samplesPos 0 0
            (by omega)
          rw [hs] at hseq
          have he1 : e1 = 0 := by
            by_cases hb : 0 < ch.playing ∧ (0 : Nat) < len
            · rw [if_pos hb] at hseq
              rw [if_neg (by
                intro hcon
                exact hlp hcon.2)] at hseq
              simp only [Prod.mk.injEq] at hseq
              exact hseq.2.2.2
            · rw [if_neg hb] at hseq
              simp only [Prod.mk.injEq] at hseq
              exact hseq.2.2.2
          dsimp only
          rcases hw : loopWrap len c.alen ch.looping s1 p1 len i1 with ⟨l2, s2, p2, i2⟩
          dsimp only
          by_cases hfix : p2 = 0 ∧ l2 ≠ 0
          · rw [if_pos hfix]
            simp [he1]
          · rw [if_neg hfix]
            simp [he1]
      · rw [mixPhase_nonpos len ch hpp]
        rfl
    · simp [mixTick1, hpa]

/-- Channels for the C6 amended-theorem instances. -/
def chC6b : Channel := { baseChannel with chunk := some ⟨1, 4, 128, true⟩, playing := 4 }

def chC6c : Channel :=
  { baseChannel with chunk := some ⟨1, 4, 128, true⟩, playing := 4, looping := 1 }

theorem claim_C6_witness :
    ((5 : Int) ≠ 0 ∧ channelActive chC6b = true ∧
      chunkTruncLoop (frameWidth ⟨8, 1⟩) ((⟨2, 4, 128, true⟩ : Mix_Chunk).alen) ≠ 0 ∧
      (0 : Int) < chC6b.playing ∧ chC6b.playing ≤ (4 : Int) ∧ chC6c.looping ≠ 0) ∧
    (haltChannel1 { baseChannel with playing := 5 }).2 = 1 ∧
    (Mix_PlayChannelTimed 0 ⟨8, 1⟩ ⟨[chC6b], 0⟩ ((0 : Nat) : Int)
      (some ⟨2, 4, 128, true⟩) 0 0).2.2.2 = [0] ∧
    (FreeEvent.doneCallback 0 ∉ (Mix_FreeChunk ⟨[chC6b], 0⟩ ⟨1, 4, 128, true⟩).2) ∧
    (mixTick1 0 4 chC6b).events = 1 ∧
    (mixTick1 0 100 chC6c).events = 0 := by
  have h := claim_C6
  refine ⟨⟨by decide, by decide, by decide, by decide, by decide, by decide⟩,
    h.1 { baseChannel with playing := 5 } (by decide),
    h.2.1 0 ⟨8, 1⟩ ⟨[chC6b], 0⟩ 0 chC6b ⟨2, 4, 128, true⟩ 0 0 (by decide) (by decide)
      (by decide),
    h.2.2.1 ⟨[chC6b], 0⟩ ⟨1, 4, 128, true⟩ 0,
    h.2.2.2.1 0 4 chC6b ⟨1, 4, 128, true⟩ rfl rfl rfl rfl rfl (by decide) (by decide),
    h.2.2.2.2 0 100 chC6c rfl rfl (by decide)⟩
